import Mathlib

/-!
Verification of the Monkey language toolchain (adamwoolhether/monkeyLang).

This file contains a shallow embedding, in Lean 4, of the parts of the Go
source that the claims C1-C10 are about:

* the `code` package (opcode definitions, `Make`, `ReadOperands`),
* the `vm` package (the stack VM of `vm.go`: `Run`, `push`, `pop`,
  `LastPoppedStackElem`, binary arithmetic and comparisons),
* the `compiler` package (`Compile` over the AST node kinds the claims
  touch, plus the symbol table),
* the `evaluator` package (`Eval`),
* the lexer and the parser (partly modelled from the spec, see the doc
  comments of the individual definitions).

Go bytes are embedded as `Nat` (kept below 256 by construction of the
encoders), Go `int64` as `Int` with explicit wrap-around modulo `2^64`
where the source can overflow, Go slices as `List`, and Go's runtime
panics (index out of range, division by zero) as an explicit
`VMError.panic` result, as opposed to `VMError.runtimeError`, which
models an `error` value returned to the caller.
-/

namespace Monkey

/-- Runtime values (`object.Object`).  In the executions modelled here the
only values that can appear on the VM stack or in the constant pool are
integers (`*object.Integer`), the two boolean singletons (`*object.Boolean`)
and strings (`*object.String`); Go's tagged interface becomes a sum type. -/
inductive Object where
  | int (value : Int)
  | bool (value : Bool)
  | str (value : String)
  deriving DecidableEq, Repr

/-- The `Type()` tag of an object (`object.ObjectType`). -/
def Object.typeTag : Object → String
  | .int _ => "INTEGER"
  | .bool _ => "BOOLEAN"
  | .str _ => "STRING"

/-- The `Inspect()` rendering of an object.  `Integer.Inspect` is
`fmt.Sprintf("%d", value)`, `Boolean.Inspect` is `fmt.Sprintf("%t", value)`,
`String.Inspect` is the raw string. -/
def Object.inspect : Object → String
  | .int v => toString v
  | .bool b => if b then "true" else "false"
  | .str s => s

namespace Code

/-- An opcode definition (`code.Definition`): human-readable name and
per-operand byte widths. -/
structure Definition where
  name : String
  operandWidths : List Nat
  deriving DecidableEq, Repr

/-- Opcode byte values, in the `iota` order of the `const` block of the
`code` package (`OpConstant = 0`, …, `OpReturn = 23`). -/
def OpConstant : Nat := 0
def OpAdd : Nat := 1
def OpPop : Nat := 2
def OpSub : Nat := 3
def OpMul : Nat := 4
def OpDiv : Nat := 5
def OpTrue : Nat := 6
def OpFalse : Nat := 7
def OpEqual : Nat := 8
def OpNotEqual : Nat := 9
def OpGreaterThan : Nat := 10
def OpMinus : Nat := 11
def OpBang : Nat := 12
def OpJumpNotTruthy : Nat := 13
def OpJump : Nat := 14
def OpNull : Nat := 15
def OpGetGlobal : Nat := 16
def OpSetGlobal : Nat := 17
def OpArray : Nat := 18
def OpHash : Nat := 19
def OpIndex : Nat := 20
def OpCall : Nat := 21
def OpReturnValue : Nat := 22
def OpReturn : Nat := 23

/-- The `definitions` map of the `code` package, as a total lookup function
(the Go map literal keyed by opcode becomes a pattern match; a missing key
is `none`, mirroring `ok == false`). -/
def lookup (op : Nat) : Option Definition :=
  match op with
  | 0 => some ⟨"OpConstant", [2]⟩
  | 1 => some ⟨"OpAdd", []⟩
  | 2 => some ⟨"OpPop", []⟩
  | 3 => some ⟨"OpSub", []⟩
  | 4 => some ⟨"OpMul", []⟩
  | 5 => some ⟨"OpDiv", []⟩
  | 6 => some ⟨"OpTrue", []⟩
  | 7 => some ⟨"OpFalse", []⟩
  | 8 => some ⟨"OpEqual", []⟩
  | 9 => some ⟨"OpNotEqual", []⟩
  | 10 => some ⟨"OpGreaterThan", []⟩
  | 11 => some ⟨"OpMinus", []⟩
  | 12 => some ⟨"OpBang", []⟩
  | 13 => some ⟨"OpJumpNotTruthy", [2]⟩
  | 14 => some ⟨"OpJump", [2]⟩
  | 15 => some ⟨"OpNull", []⟩
  | 16 => some ⟨"OpGetGlobal", [2]⟩
  | 17 => some ⟨"OpSetGlobal", [2]⟩
  | 18 => some ⟨"OpArray", [2]⟩
  | 19 => some ⟨"OpHash", [2]⟩
  | 20 => some ⟨"OpIndex", []⟩
  | 21 => some ⟨"OpCall", []⟩
  | 22 => some ⟨"OpReturnValue", []⟩
  | 23 => some ⟨"OpReturn", []⟩
  | _ => none

/-- `binary.BigEndian.PutUint16(instruction[offset:], v)`: write the two
big-endian bytes of `v < 2^16` at positions `offset` and `offset+1`. -/
def putUint16 (ins : List Nat) (offset : Nat) (v : Nat) : List Nat :=
  (ins.set offset (v / 256)).set (offset + 1) (v % 256)

/-- The operand-encoding loop of `Make`: `for i, o := range operands`,
writing each operand at its accumulated offset according to its width
(only width 2 is handled by the `switch`, as in the source).  The
`_ :: _, []` case (more operands than widths) would be an index-out-of-range
panic in Go; it is unreachable under the hypotheses of the round-trip
theorem and modelled as leaving the buffer unchanged. -/
def writeOperands (ins : List Nat) (operands : List Int) (widths : List Nat)
    (offset : Nat) : List Nat :=
  match operands, widths with
  | [], _ => ins
  | o :: os, w :: ws =>
    let ins' := if w = 2 then putUint16 ins offset (o.emod 65536).toNat else ins
    writeOperands ins' os ws (offset + w)
  | _ :: _, [] => ins

/-- `code.Make`: build one instruction from an opcode and its operands.
An opcode without a definition yields the empty byte slice.  Go's
`uint16(o)` conversion truncates the operand modulo `2^16`
(`(o.emod 65536).toNat` in `writeOperands`). -/
def make (op : Nat) (operands : List Int) : List Nat :=
  match lookup op with
  | none => []
  | some d =>
    let instructionLen := 1 + d.operandWidths.sum
    let instruction := (List.replicate instructionLen 0).set 0 op
    writeOperands instruction operands d.operandWidths 1

/-- `code.ReadUint16`: `binary.BigEndian.Uint16(ins)` reads two big-endian
bytes; fewer than two available bytes is a Go slice-bounds panic, modelled
as `none`. -/
def readUint16 (ins : List Nat) : Option Nat :=
  match ins with
  | hi :: lo :: _ => some (hi * 256 + lo)
  | _ => none

/-- The decoding loop of `ReadOperands`: one operand per declared width,
accumulating the offset.  A width other than 2 leaves the pre-allocated
zero operand in place, as the Go `switch` does. -/
def readLoop (ins : List Nat) (widths : List Nat) (offset : Nat) :
    Option (List Int × Nat) :=
  match widths with
  | [] => some ([], offset)
  | w :: ws =>
    if w = 2 then
      match readUint16 (ins.drop offset) with
      | none => none
      | some v =>
        match readLoop ins ws (offset + w) with
        | none => none
        | some (os, fin) => some ((v : Int) :: os, fin)
    else
      match readLoop ins ws (offset + w) with
      | none => none
      | some (os, fin) => some ((0 : Int) :: os, fin)

/-- `code.ReadOperands`: decode the operands of one instruction (opcode
byte already stripped) according to its definition, returning the operands
and the number of bytes read. -/
def readOperands (d : Definition) (ins : List Nat) : Option (List Int × Nat) :=
  readLoop ins d.operandWidths 0

/-- Every operand list `fits` a width list when the lengths agree and each
operand is a non-negative value representable in its width. -/
def fitsWidths (operands : List Int) (widths : List Nat) : Prop :=
  operands.length = widths.length ∧
    ∀ p ∈ operands.zip widths, 0 ≤ p.1 ∧ p.1 < 2 ^ (8 * p.2)

instance (operands : List Int) (widths : List Nat) :
    Decidable (fitsWidths operands widths) := by
  unfold fitsWidths; infer_instance

end Code

/- ------------------------------------------------------------------ -/
/- The virtual machine (`vm.go`). -/

namespace VM

/-- `vm.StackSize`. -/
def stackSize : Nat := 2048

/-- The outcome of a failing VM operation.  `runtimeError` is an `error`
value returned to the caller (built with `fmt.Errorf`); `goPanic` is a Go
runtime panic — slice index out of range, failed type assertion, or
integer division by zero — which crashes the host process instead of
being returned. -/
inductive VMError where
  | runtimeError (msg : String)
  | goPanic (msg : String)
  deriving DecidableEq, Repr

/-- Compiler output (`compiler.Bytecode`). -/
structure Bytecode where
  instructions : List Nat
  constants : List Object
  deriving DecidableEq, Repr

/-- The VM state (`vm.VM`): constants and instructions from the compiler,
the value stack (pre-allocated with `StackSize` slots, all nil — `none` —
initially), and the stack pointer `sp`, which always points to the next
free slot. -/
structure VM where
  constants : List Object
  instructions : List Nat
  stack : List (Option Object)
  sp : Nat
  deriving DecidableEq, Repr

/-- The `True` singleton (`vm.True`).  Booleans are shared immutable
singletons, so Go pointer equality on them coincides with value
equality. -/
def trueObj : Object := .bool true

/-- The `False` singleton (`vm.False`). -/
def falseObj : Object := .bool false

/-- `vm.New`: stack pre-allocated to `StackSize` slots, `sp = 0`. -/
def new (bytecode : Bytecode) : VM :=
  { constants := bytecode.constants
    instructions := bytecode.instructions
    stack := List.replicate stackSize none
    sp := 0 }

/-- `vm.push`: checks the stack size, stores the object at `stack[sp]`
and increments the stack pointer.  When `sp >= StackSize` it returns the
`stack overflow` error. -/
def push (vm : VM) (o : Object) : Except VMError VM :=
  if stackSize ≤ vm.sp then .error (.runtimeError "stack overflow")
  else .ok { vm with stack := vm.stack.set vm.sp (some o), sp := vm.sp + 1 }

/-- `vm.pop`: reads `stack[sp-1]` and decrements `sp`.  There is no bounds
check: with `sp = 0` the Go code indexes the slice at `-1` and panics
(modelled by `goPanic`).  The second `goPanic` branch covers reading an
unwritten (nil) slot or an out-of-range index; it is unreachable from
states produced by `new` and the handlers, which keep every slot below
`sp` written. -/
def pop (vm : VM) : Except VMError (Object × VM) :=
  if vm.sp = 0 then .error (.goPanic "index out of range")
  else
    match vm.stack.get? (vm.sp - 1) with
    | some (some o) => .ok (o, { vm with sp := vm.sp - 1 })
    | _ => .error (.goPanic "index out of range")

/-- `vm.LastPoppedStackElem`: returns `stack[sp]`, the slot just above the
top of the stack, where the most recently popped value still resides.
(Go would panic for `sp ≥ len(stack)`; in that out-of-range case the model
returns the `none` default.) -/
def lastPoppedStackElem (vm : VM) : Option Object :=
  vm.stack.getD vm.sp none

/-- `nativeBoolToBooleanObject`: the `True` or `False` singleton. -/
def nativeBoolToBooleanObject (input : Bool) : Object :=
  if input then trueObj else falseObj

/-- Wrap-around of Go `int64` two's-complement arithmetic: reduce into
`[-2^63, 2^63)`. -/
def wrap64 (x : Int) : Int :=
  (x + 2 ^ 63) % 2 ^ 64 - 2 ^ 63

/-- Go interface pointer equality (`right == left` in
`executeComparison`), for the non-integer fallback.  The `True`/`False`
singletons compare by value (they are shared allocations); any other pair
of operands reaching this comparison consists of distinct heap
allocations and compares unequal.  (Two string constants pushed from the
same constant-pool index would be pointer-equal in Go; no execution
modelled in this file compares strings.) -/
def refEq : Object → Object → Bool
  | .bool a, .bool b => a == b
  | _, _ => false

/-- `vm.executeBinaryIntegerOperation`: `int64` arithmetic on the unwrapped
values, pushing the result.  Go division truncates toward zero
(`Int.tdiv`) and panics on a zero divisor; `MinInt64 / -1` wraps (the Go
spec defines it as `MinInt64`), which `wrap64` reproduces.  The
non-integer case is the failed type assertion `left.(*object.Integer)`,
a panic, unreachable from `executeBinaryOperation`. -/
def executeBinaryIntegerOperation (vm : VM) (op : Nat) (left right : Object) :
    Except VMError VM :=
  match left, right with
  | .int leftValue, .int rightValue =>
    if op = Code.OpAdd then push vm (.int (wrap64 (leftValue + rightValue)))
    else if op = Code.OpSub then push vm (.int (wrap64 (leftValue - rightValue)))
    else if op = Code.OpMul then push vm (.int (wrap64 (leftValue * rightValue)))
    else if op = Code.OpDiv then
      if rightValue = 0 then .error (.goPanic "integer divide by zero")
      else push vm (.int (wrap64 (leftValue.tdiv rightValue)))
    else .error (.runtimeError ("unknown integer operator: " ++ toString op))
  | _, _ => .error (.goPanic "type assertion failed")

/-- `vm.executeBinaryOperation`: pop right then left; both integers go to
the integer operation, anything else is the `unsupported types` runtime
error. -/
def executeBinaryOperation (vm : VM) (op : Nat) : Except VMError VM := do
  let (right, vm1) ← pop vm
  let (left, vm2) ← pop vm1
  match left, right with
  | .int _, .int _ => executeBinaryIntegerOperation vm2 op left right
  | _, _ =>
    .error (.runtimeError ("unsupported types for binary operation: "
      ++ left.typeTag ++ " " ++ right.typeTag))

/-- `vm.executeIntegerComparison`: compare the unwrapped values and push
the `True`/`False` singleton.  `OpGreaterThan` computes
`leftValue > rightValue`. -/
def executeIntegerComparison (vm : VM) (op : Nat) (left right : Object) :
    Except VMError VM :=
  match left, right with
  | .int leftValue, .int rightValue =>
    if op = Code.OpEqual then
      push vm (nativeBoolToBooleanObject (rightValue == leftValue))
    else if op = Code.OpNotEqual then
      push vm (nativeBoolToBooleanObject (rightValue != leftValue))
    else if op = Code.OpGreaterThan then
      push vm (nativeBoolToBooleanObject (rightValue < leftValue))
    else .error (.runtimeError ("unknown operator: " ++ toString op))
  | _, _ => .error (.goPanic "type assertion failed")

/-- `vm.executeComparison`: pop right then left; integers are compared by
value, anything else by pointer equality for `OpEqual`/`OpNotEqual`. -/
def executeComparison (vm : VM) (op : Nat) : Except VMError VM := do
  let (right, vm1) ← pop vm
  let (left, vm2) ← pop vm1
  match left, right with
  | .int _, .int _ => executeIntegerComparison vm2 op left right
  | _, _ =>
    if op = Code.OpEqual then
      push vm2 (nativeBoolToBooleanObject (refEq right left))
    else if op = Code.OpNotEqual then
      push vm2 (nativeBoolToBooleanObject (!refEq right left))
    else
      .error (.runtimeError ("unknown operator: " ++ toString op ++ " ("
        ++ left.typeTag ++ " " ++ right.typeTag ++ ")"))

/-- The switch body of one iteration of the fetch-decode-execute loop of
`vm.Run` (`switch op`), returning the updated VM together with the value
of `ip` for the next iteration (the handlers of operand-carrying opcodes
advance `ip` past the operand bytes, and the `for` loop then increments
it once more).  An opcode byte with no `case` in the `switch` falls
through: the state is unchanged and the loop merely increments `ip`,
exactly as in the source. -/
def execOp (vm : VM) (ip : Nat) (op : Nat) : Except VMError (VM × Nat) :=
  if op = Code.OpConstant then
    match Code.readUint16 (vm.instructions.drop (ip + 1)) with
    | none => .error (.goPanic "slice bounds out of range")
    | some constIndex =>
      match vm.constants.get? constIndex with
      | none => .error (.goPanic "index out of range")
      | some c =>
        match push vm c with
        | .error e => .error e
        | .ok vm' => .ok (vm', ip + 3)
  else if op = Code.OpAdd ∨ op = Code.OpSub ∨ op = Code.OpMul
      ∨ op = Code.OpDiv then
    match executeBinaryOperation vm op with
    | .error e => .error e
    | .ok vm' => .ok (vm', ip + 1)
  else if op = Code.OpPop then
    match pop vm with
    | .error e => .error e
    | .ok (_, vm') => .ok (vm', ip + 1)
  else if op = Code.OpTrue then
    match push vm trueObj with
    | .error e => .error e
    | .ok vm' => .ok (vm', ip + 1)
  else if op = Code.OpFalse then
    match push vm falseObj with
    | .error e => .error e
    | .ok vm' => .ok (vm', ip + 1)
  else if op = Code.OpEqual ∨ op = Code.OpNotEqual
      ∨ op = Code.OpGreaterThan then
    match executeComparison vm op with
    | .error e => .error e
    | .ok vm' => .ok (vm', ip + 1)
  else
    .ok (vm, ip + 1)

/-- One iteration of the run loop: fetch the opcode byte at `ip`
(`op := code.Opcode(vm.instructions[ip])`) and dispatch on it. -/
def runStep (vm : VM) (ip : Nat) : Except VMError (VM × Nat) :=
  execOp vm ip (vm.instructions.getD ip 0)

/-- The fetch-decode-execute loop of `vm.Run`
(`for ip := 0; ip < len(vm.instructions); ip++`), iterating `runStep`.
`fuel` is a structural-recursion bound: every iteration advances `ip` by
at least 1 and consumes exactly 1 fuel, so starting with
`fuel = len(instructions)` (as `run` does) the `0` branch is never
reached. -/
def runFrom (vm : VM) (ip : Nat) (fuel : Nat) : Except VMError VM :=
  match fuel with
  | 0 => .ok vm
  | fuel + 1 =>
    if ip < vm.instructions.length then
      match runStep vm ip with
      | .error e => .error e
      | .ok (vm', ip') => runFrom vm' ip' fuel
    else .ok vm

/-- `vm.Run`: the main loop from instruction 0. -/
def run (vm : VM) : Except VMError VM :=
  runFrom vm 0 vm.instructions.length

/-- One successful loop iteration as a relation on (state, ip) pairs: the
loop is still running (`ip` in range) and the body did not return an
error. -/
def stepRel (p q : VM × Nat) : Prop :=
  p.2 < p.1.instructions.length ∧ runStep p.1 p.2 = .ok q

/-- `reachable p q`: the configuration `q` arises from `p` by zero or more
successful loop iterations of `vm.Run`. -/
def reachable : VM × Nat → VM × Nat → Prop :=
  Relation.ReflTransGen stepRel

end VM

/- ------------------------------------------------------------------ -/
/- The AST (`ast.go`), restricted to the node kinds the claims touch. -/

mutual
/-- Expression nodes of the AST (`ast.Expression` variants).  Token
fields, which carry only source lexemes for diagnostics, are omitted;
the semantic payload of each node is kept.  Node kinds not exercised by
any claim (if-expressions, calls, arrays, hashes, index expressions) are
not embedded. -/
inductive Expr where
  | ident (value : String)
  | intLit (value : Int)
  | boolLit (value : Bool)
  | strLit (value : String)
  | prefixExpr (operator : String) (right : Expr)
  | infixExpr (operator : String) (left : Expr) (right : Expr)
  | funcLit (parameters : List String) (body : List Stmt) (name : String)

/-- Statement nodes of the AST (`ast.Statement` variants).  In Go the
expression fields are interface values that may be `nil` (the parser
stores `nil` when a sub-parse fails); hence `Option Expr`. -/
inductive Stmt where
  | letStmt (name : String) (value : Option Expr)
  | returnStmt (returnValue : Option Expr)
  | exprStmt (expression : Option Expr)
end

/-- `ast.Program`: a list of statements. -/
structure Program where
  statements : List Stmt

/- ------------------------------------------------------------------ -/
/- The tree-walking evaluator (`evaluator.go`). -/

namespace Evaluator

/-- The evaluator's `nativeBoolToBooleanObject`: the shared `TRUE` or
`FALSE` singleton. -/
def nativeBoolToBooleanObject (input : Bool) : Object :=
  if input then .bool true else .bool false

mutual
/-- `evaluator.Eval` on a statement node.  The `Eval` switch handles
`*ast.Program`, `*ast.ExpressionStatement`, `*ast.IntegerLiteral` and
`*ast.Boolean` only; every other node type falls through and `Eval`
returns Go `nil`, modelled as `none`. -/
def evalStmt : Stmt → Option Object
  | .exprStmt e => evalMaybeExpr e
  | .letStmt _ _ => none
  | .returnStmt _ => none

/-- `Eval` applied to a possibly-nil expression (`Eval(nil)` matches no
case and returns `nil`). -/
def evalMaybeExpr : Option Expr → Option Object
  | none => none
  | some e => evalExpr e

/-- `evaluator.Eval` on an expression node. -/
def evalExpr : Expr → Option Object
  | .intLit v => some (.int v)
  | .boolLit b => some (nativeBoolToBooleanObject b)
  | .ident _ => none
  | .strLit _ => none
  | .prefixExpr _ _ => none
  | .infixExpr _ _ _ => none
  | .funcLit _ _ _ => none
end

/-- `evalStatements`: `result = Eval(statement)` for each statement in
order, returning the last result (`nil` for an empty program). -/
def evalStatements (stmts : List Stmt) : Option Object :=
  stmts.foldl (fun _result statement => evalStmt statement) none

/-- `Eval` on `*ast.Program`. -/
def evalProgram (p : Program) : Option Object :=
  evalStatements p.statements

end Evaluator

/- ------------------------------------------------------------------ -/
/- The compiler (`compiler.go`). -/

namespace Compiler

/-- The compiler state: the constant pool and the instruction buffer of
the current (only) compilation scope.  The scope stack, the
last/previous-instruction records (used by the `if`-expression peephole)
and the symbol table are exercised by none of the compiled programs in
this file — every program compiled here is a single-scope sequence of
expression statements — and are not carried. -/
structure Compiler where
  constants : List Object
  instructions : List Nat
  deriving Repr

/-- `compiler.New` (minus the symbol table). -/
def new : Compiler := ⟨[], []⟩

/-- `addConstant`: append to the pool, return the index of the new
constant. -/
def addConstant (c : Compiler) (obj : Object) : Compiler × Nat :=
  ({ c with constants := c.constants ++ [obj] }, c.constants.length)

/-- `emit`: `Make` the instruction and append it to the buffer
(`addInstruction`).  The emitted position, used only by the peephole
machinery, is not needed here. -/
def emit (c : Compiler) (op : Nat) (operands : List Int) : Compiler :=
  { c with instructions := c.instructions ++ Code.make op operands }

mutual
/-- `Compiler.Compile` on expression nodes.  The `*ast.InfixExpression`
case: operator `<` compiles the right operand, then the left operand,
then emits `OpGreaterThan`; every other operator compiles left, right,
then the matching opcode, or fails with `unknown operator`.
`*ast.Identifier` and `*ast.FunctionLiteral` need the symbol table and
the scope stack; no claim compiles them, and they are not modelled
(reported as an error rather than silently skipped). -/
def compileExpr (c : Compiler) : Expr → Except String Compiler
  | .infixExpr op l r =>
    if op = "<" then
      match compileExpr c r with
      | .error e => .error e
      | .ok c1 =>
        match compileExpr c1 l with
        | .error e => .error e
        | .ok c2 => .ok (emit c2 Code.OpGreaterThan [])
    else
      match compileExpr c l with
      | .error e => .error e
      | .ok c1 =>
        match compileExpr c1 r with
        | .error e => .error e
        | .ok c2 =>
          if op = "+" then .ok (emit c2 Code.OpAdd [])
          else if op = "-" then .ok (emit c2 Code.OpSub [])
          else if op = "*" then .ok (emit c2 Code.OpMul [])
          else if op = "/" then .ok (emit c2 Code.OpDiv [])
          else if op = ">" then .ok (emit c2 Code.OpGreaterThan [])
          else if op = "==" then .ok (emit c2 Code.OpEqual [])
          else if op = "!=" then .ok (emit c2 Code.OpNotEqual [])
          else .error ("unknown operator " ++ op)
  | .intLit v =>
    match addConstant c (.int v) with
    | (c1, idx) => .ok (emit c1 Code.OpConstant [(idx : Int)])
  | .boolLit b =>
    if b then .ok (emit c Code.OpTrue []) else .ok (emit c Code.OpFalse [])
  | .prefixExpr op r =>
    match compileExpr c r with
    | .error e => .error e
    | .ok c1 =>
      if op = "!" then .ok (emit c1 Code.OpBang [])
      else if op = "-" then .ok (emit c1 Code.OpMinus [])
      else .error ("unknown operator " ++ op)
  | .strLit sv =>
    match addConstant c (.str sv) with
    | (c1, idx) => .ok (emit c1 Code.OpConstant [(idx : Int)])
  | .ident _ => .error "identifier compilation not embedded (symbol table)"
  | .funcLit _ _ _ => .error "function-literal compilation not embedded"

/-- `Compile` on a possibly-nil expression: `Compile(nil)` matches no
case of the switch and returns without error or effect. -/
def compileMaybeExpr (c : Compiler) : Option Expr → Except String Compiler
  | none => .ok c
  | some e => compileExpr c e

/-- `Compiler.Compile` on statement nodes.  `*ast.ExpressionStatement`
compiles the expression and emits `OpPop`; `*ast.ReturnStatement`
compiles the value and emits `OpReturnValue`; `*ast.LetStatement` needs
the symbol table and is not modelled. -/
def compileStmt (c : Compiler) : Stmt → Except String Compiler
  | .exprStmt e =>
    match compileMaybeExpr c e with
    | .error err => .error err
    | .ok c1 => .ok (emit c1 Code.OpPop [])
  | .returnStmt v =>
    match compileMaybeExpr c v with
    | .error err => .error err
    | .ok c1 => .ok (emit c1 Code.OpReturnValue [])
  | .letStmt _ _ => .error "let-statement compilation not embedded (symbol table)"
end

/-- `Compile` on `*ast.Program`: compile each statement in order. -/
def compileStmts (c : Compiler) : List Stmt → Except String Compiler
  | [] => .ok c
  | s :: rest =>
    match compileStmt c s with
    | .error e => .error e
    | .ok c1 => compileStmts c1 rest

/-- Compiling a whole program from a fresh compiler and extracting the
`Bytecode` (`Compiler.Bytecode()`). -/
def compileProgram (p : Program) : Except String VM.Bytecode :=
  match compileStmts new p.statements with
  | .error e => .error e
  | .ok c => .ok ⟨c.instructions, c.constants⟩

end Compiler

/- ------------------------------------------------------------------ -/
/- The symbol table of the compiler package.  The early iteration in the
   sources has only Global/Local scopes and no free-variable handling,
   while `compiler.go` uses `FreeSymbols`, `BuiltinScope`, `FreeScope`,
   `FunctionScope`, `DefineBuiltin` and `DefineFunctionName`; the symbol
   table implementing those is not among the source files, so the parts
   beyond the early iteration are modelled from the spec (section 4.5). -/

namespace SymTab

/-- `compiler.SymbolScope`.  The early source has Global and Local;
Builtin, Free and Function are modelled from the spec. -/
inductive SymbolScope where
  | globalScope
  | localScope
  | builtinScope
  | freeScope
  | functionScope
  deriving DecidableEq, Repr

/-- `compiler.Symbol`: name, scope and index. -/
structure Symbol where
  name : String
  scope : SymbolScope
  index : Nat
  deriving DecidableEq, Repr

/-- `compiler.SymbolTable`: the per-scope name store, the definition
counter, the captured `FreeSymbols` (modelled from the spec) and the
`Outer` link. -/
inductive SymbolTable where
  | mk (store : List (String × Symbol)) (numDefinitions : Nat)
      (freeSymbols : List Symbol) (outer : Option SymbolTable)
  deriving Repr

def SymbolTable.store : SymbolTable → List (String × Symbol)
  | .mk st _ _ _ => st

def SymbolTable.numDefinitions : SymbolTable → Nat
  | .mk _ nd _ _ => nd

def SymbolTable.freeSymbols : SymbolTable → List Symbol
  | .mk _ _ fs _ => fs

def SymbolTable.outer : SymbolTable → Option SymbolTable
  | .mk _ _ _ o => o

/-- Lookup in the Go map `store` (newest write first). -/
def lookupStore : List (String × Symbol) → String → Option Symbol
  | [], _ => none
  | (n, sym) :: rest, name =>
    if n = name then some sym else lookupStore rest name

/-- `SymbolTable.Define` (as in the early source, which the spec keeps):
index is the definition count of this scope; Global in the outermost
scope, Local otherwise; the definition counter is incremented. -/
def define (s : SymbolTable) (name : String) : Symbol × SymbolTable :=
  match s with
  | .mk st nd fs outerOpt =>
    let scope : SymbolScope :=
      match outerOpt with
      | none => .globalScope
      | some _ => .localScope
    let symbol : Symbol := ⟨name, scope, nd⟩
    (symbol, .mk ((name, symbol) :: st) (nd + 1) fs outerOpt)

/-- Modelled from the spec: `DefineBuiltin(i, name)` registers a Builtin
symbol at the fixed index `i` without touching the definition counter. -/
def defineBuiltin (s : SymbolTable) (index : Nat) (name : String) :
    Symbol × SymbolTable :=
  match s with
  | .mk st nd fs outerOpt =>
    let symbol : Symbol := ⟨name, .builtinScope, index⟩
    (symbol, .mk ((name, symbol) :: st) nd fs outerOpt)

/-- Modelled from the spec: `DefineFunctionName(name)` registers a
Function-scoped symbol with index 0 so the enclosed body can refer to
the function by name. -/
def defineFunctionName (s : SymbolTable) (name : String) :
    Symbol × SymbolTable :=
  match s with
  | .mk st nd fs outerOpt =>
    let symbol : Symbol := ⟨name, .functionScope, 0⟩
    (symbol, .mk ((name, symbol) :: st) nd fs outerOpt)

/-- Modelled from the spec: `Resolve(name)` searches inner→outer.  If the
name is found in an outer non-global, non-builtin scope from within an
enclosed scope, a copy of the original symbol is appended to the current
scope's `FreeSymbols`, and the recursive lookup return-value is
rewritten — before propagating — to a Free-scoped symbol whose index is
its position in `FreeSymbols`.  Go mutates the tables through pointers;
here the (possibly updated) table is returned alongside the symbol. -/
def resolve : SymbolTable → String → Option (Symbol × SymbolTable)
  | .mk st nd fs none, name =>
    match lookupStore st name with
    | some sym => some (sym, .mk st nd fs none)
    | none => none
  | .mk st nd fs (some out), name =>
    match lookupStore st name with
    | some sym => some (sym, .mk st nd fs (some out))
    | none =>
      match resolve out name with
      | none => none
      | some (sym, out') =>
        if sym.scope = .globalScope ∨ sym.scope = .builtinScope then
          some (sym, .mk st nd fs (some out'))
        else
          some (⟨sym.name, .freeScope, fs.length⟩,
            .mk st nd (fs ++ [sym]) (some out'))

end SymTab

/- ------------------------------------------------------------------ -/
/- The token package (src/unnamed/part_003): token kinds are strings,
   a token pairs a kind with its source lexeme. -/

namespace token

def ILLEGAL : String := "ILLEGAL"

def EOF : String := "EOF"

def IDENT : String := "IDENT"

def INT : String := "INT"

def ASSIGN : String := "="

def PLUS : String := "+"

def MINUS : String := "-"

def BANG : String := "!"

def ASTERISK : String := "*"

def SLASH : String := "/"

def LT : String := "<"

def GT : String := ">"

def EQ : String := "=="

def NOT_EQ : String := "!="

def COMMA : String := ","

def SEMICOLON : String := ";"

def COLON : String := ":"

def LPAREN : String := "("

def RPAREN : String := ")"

def LBRACE : String := "\x7b"

def RBRACE : String := "\x7d"

def LBRACKET : String := "["

def RBRACKET : String := "]"

def FUNCTION : String := "FUNCTION"

def LET : String := "LET"

def TRUE : String := "TRUE"

def FALSE : String := "FALSE"

def IF : String := "IF"

def ELSE : String := "ELSE"

def RETURN : String := "RETURN"

def STRING : String := "STRING"

/-- `token.Token`: the Go fields are `Type` and `Literal`. -/
structure Token where
  type : String
  literal : String
  deriving DecidableEq, Repr

/-- The `keywords` map of the token package. -/
def keywords : List (String × String) :=
  [("fn", FUNCTION), ("let", LET), ("true", TRUE), ("false", FALSE),
   ("if", IF), ("else", ELSE), ("return", RETURN)]

/-- `token.LookupIdent`: keyword kinds for keywords, IDENT otherwise. -/
def LookupIdent (ident : String) : String :=
  (keywords.lookup ident).getD IDENT

end token

/- ------------------------------------------------------------------ -/
/- The lexer.  `readChar`, `skipWhitespace`, `isLetter`, `isDigit`,
   `readIdentifier` and `readNumber` follow src/unnamed/part_001; the
   `NextToken` in the source files is an early iteration that maps `=`
   unconditionally to ASSIGN and has no `!` case, while the spec
   (section 4.1) describes the final lexer with one-byte lookahead,
   so `peekChar`, `readString` and the full `nextToken` dispatch are
   modelled from the spec.  The input is the byte string as a list of
   byte values; Go loops become fuel recursion (each iteration performs
   a `readChar`, which increments `readPosition`, so `input.length + 1`
   fuel always suffices). -/

namespace Lexer

/-- `lexer.Lexer`: input bytes, current position, read position and the
current byte (0 at end of input). -/
structure Lexer where
  input : List Nat
  position : Nat
  readPosition : Nat
  ch : Nat
  deriving DecidableEq, Repr

/-- `Lexer.readChar`: load the byte at `readPosition` (0 past the end)
and advance. -/
def readChar (l : Lexer) : Lexer :=
  let c := if l.input.length ≤ l.readPosition then 0
    else l.input.getD l.readPosition 0
  ⟨l.input, l.readPosition, l.readPosition + 1, c⟩

/-- Modelled from the spec: `peekChar` returns the byte at
`readPosition` without advancing (one-byte lookahead). -/
def peekChar (l : Lexer) : Nat :=
  if l.input.length ≤ l.readPosition then 0
  else l.input.getD l.readPosition 0

/-- `lexer.New`: a fresh lexer with the first byte already loaded. -/
def new (input : List Nat) : Lexer :=
  readChar ⟨input, 0, 0, 0⟩

/-- `isLetter`: ASCII letters and underscore. -/
def isLetter (ch : Nat) : Bool :=
  (decide (97 ≤ ch) && decide (ch ≤ 122))
    || (decide (65 ≤ ch) && decide (ch ≤ 90)) || decide (ch = 95)

/-- `isDigit`: ASCII digits. -/
def isDigit (ch : Nat) : Bool :=
  decide (48 ≤ ch) && decide (ch ≤ 57)

/-- `Lexer.skipWhitespace`: skip space, tab, newline, carriage return. -/
def skipWhitespace : Nat → Lexer → Lexer
  | 0, l => l
  | fuel + 1, l =>
    if l.ch = 32 ∨ l.ch = 9 ∨ l.ch = 10 ∨ l.ch = 13 then
      skipWhitespace fuel (readChar l)
    else l

/-- The shared loop of `readIdentifier`/`readNumber`: advance while the
current byte satisfies the predicate. -/
def readWhile (pred : Nat → Bool) : Nat → Lexer → Lexer
  | 0, l => l
  | fuel + 1, l =>
    if pred l.ch then readWhile pred fuel (readChar l) else l

def chString (ch : Nat) : String :=
  String.mk [Char.ofNat ch]

def bytesToString (bs : List Nat) : String :=
  String.mk (bs.map Char.ofNat)

/-- `Lexer.readIdentifier`: the slice `input[position:l.position]` after
advancing over letters. -/
def readIdentifier (l : Lexer) : String × Lexer :=
  let lf := readWhile isLetter (l.input.length + 1) l
  (bytesToString ((l.input.take lf.position).drop l.position), lf)

/-- `Lexer.readNumber`: the slice `input[position:l.position]` after
advancing over digits. -/
def readNumber (l : Lexer) : String × Lexer :=
  let lf := readWhile isDigit (l.input.length + 1) l
  (bytesToString ((l.input.take lf.position).drop l.position), lf)

/-- Modelled from the spec: the string-literal loop reads until the next
`"` or end of input. -/
def readStringLoop : Nat → Lexer → Lexer
  | 0, l => l
  | fuel + 1, l =>
    let l1 := readChar l
    if l1.ch = 34 ∨ l1.ch = 0 then l1 else readStringLoop fuel l1

/-- Modelled from the spec: `readString` returns the bytes strictly
between the opening quote and the terminator. -/
def readString (l : Lexer) : String × Lexer :=
  let lf := readStringLoop (l.input.length + 1) l
  (bytesToString ((l.input.take lf.position).drop (l.position + 1)), lf)

/-- `newToken`: a token whose literal is the single byte. -/
def newToken (tokenType : String) (ch : Nat) : token.Token :=
  ⟨tokenType, chString ch⟩

/-- Modelled from the spec: the dispatch of the final `NextToken` after
whitespace has been skipped.  `=` and `!` peek one byte ahead: `==`
yields a single EQ token (both bytes consumed), otherwise ASSIGN; `!=`
yields a single NOT_EQ token, otherwise BANG.  Single-byte punctuators
map directly; `"` starts a string; letters start identifiers/keywords;
digits start INT; byte 0 is EOF; anything else is ILLEGAL. -/
def nextTokenDispatch (l : Lexer) : token.Token × Lexer :=
  if l.ch = 61 then
    if peekChar l = 61 then (⟨token.EQ, "=="⟩, readChar (readChar l))
    else (newToken token.ASSIGN l.ch, readChar l)
  else if l.ch = 33 then
    if peekChar l = 61 then (⟨token.NOT_EQ, "!="⟩, readChar (readChar l))
    else (newToken token.BANG l.ch, readChar l)
  else if l.ch = 59 then (newToken token.SEMICOLON l.ch, readChar l)
  else if l.ch = 58 then (newToken token.COLON l.ch, readChar l)
  else if l.ch = 40 then (newToken token.LPAREN l.ch, readChar l)
  else if l.ch = 41 then (newToken token.RPAREN l.ch, readChar l)
  else if l.ch = 44 then (newToken token.COMMA l.ch, readChar l)
  else if l.ch = 43 then (newToken token.PLUS l.ch, readChar l)
  else if l.ch = 45 then (newToken token.MINUS l.ch, readChar l)
  else if l.ch = 47 then (newToken token.SLASH l.ch, readChar l)
  else if l.ch = 42 then (newToken token.ASTERISK l.ch, readChar l)
  else if l.ch = 60 then (newToken token.LT l.ch, readChar l)
  else if l.ch = 62 then (newToken token.GT l.ch, readChar l)
  else if l.ch = 123 then (newToken token.LBRACE l.ch, readChar l)
  else if l.ch = 125 then (newToken token.RBRACE l.ch, readChar l)
  else if l.ch = 91 then (newToken token.LBRACKET l.ch, readChar l)
  else if l.ch = 93 then (newToken token.RBRACKET l.ch, readChar l)
  else if l.ch = 34 then
    let r := readString l
    (⟨token.STRING, r.1⟩, readChar r.2)
  else if l.ch = 0 then (⟨token.EOF, ""⟩, readChar l)
  else if isLetter l.ch then
    let r := readIdentifier l
    (⟨token.LookupIdent r.1, r.1⟩, r.2)
  else if isDigit l.ch then
    let r := readNumber l
    (⟨token.INT, r.1⟩, r.2)
  else (newToken token.ILLEGAL l.ch, readChar l)

/-- `Lexer.NextToken`: skip whitespace, then dispatch on the current
byte. -/
def nextToken (l : Lexer) : token.Token × Lexer :=
  nextTokenDispatch (skipWhitespace (l.input.length + 1) l)

end Lexer

/- ------------------------------------------------------------------ -/
/- The Pratt parser (src/parser/parser.go, last iteration).  The
   expression machinery — precedences, `parseExpression`, the prefix and
   infix dispatch, `expectPeek`, `parseIntegerLiteral`,
   `parsePrefixExpression`, `parseInfixExpression`, `parseBoolean`,
   `parseGroupedExpression`, `parseIdentifier`, the statement dispatch —
   follows that source.  The `parseLetStatement` in the source files is
   an early iteration that still skips the right-hand side with a TODO,
   while the spec (section 4.2) describes the final parser, so the body
   of `parseLetStatement` (and of `parseReturnStatement`,
   `parseFunctionLiteral` and block/parameter parsing, which the source
   snapshot does not yet register) is modelled from the spec.  Instead
   of pulling tokens from a lexer, the parser state carries the pending
   token list (`headD` the EOF token, as the lexer yields EOF forever at
   end of input).  Go's parsing loops and mutual recursion become fuel
   recursion: every recursive call decreases the fuel, and a sub-parse
   that Go would record as a `nil` child node is collapsed to `none`
   for the whole node (the claims never exercise that path). -/

namespace Parser

/-- `parser.Parser`: current token, peek token, the pending token
stream, and the accumulated error strings. -/
structure Parser where
  curToken : token.Token
  peekToken : token.Token
  rest : List token.Token
  errors : List String
  deriving Repr

/-- `Parser.nextToken`: advance `curToken` and `peekToken`. -/
def nextToken (p : Parser) : Parser :=
  ⟨p.peekToken, p.rest.headD ⟨token.EOF, ""⟩, p.rest.tail, p.errors⟩

/-- The precedence ladder (Go `iota` constants). -/
def LOWEST : Nat := 1

def EQUALS : Nat := 2

def LESSGREATER : Nat := 3

def SUM : Nat := 4

def PRODUCT : Nat := 5

/-- The Go constant is named PREFIX (`-x`, `!x`). -/
def PREFIXPREC : Nat := 6

def CALL : Nat := 7

/-- The `precedences` table: kinds without an entry get LOWEST. -/
def precedence (t : String) : Nat :=
  if t = token.EQ ∨ t = token.NOT_EQ then EQUALS
  else if t = token.LT ∨ t = token.GT then LESSGREATER
  else if t = token.PLUS ∨ t = token.MINUS then SUM
  else if t = token.SLASH ∨ t = token.ASTERISK then PRODUCT
  else LOWEST

def peekPrecedence (p : Parser) : Nat :=
  precedence p.peekToken.type

def curPrecedence (p : Parser) : Nat :=
  precedence p.curToken.type

/-- `peekError`: the formatted mismatch message. -/
def peekError (p : Parser) (t : String) : Parser :=
  { p with errors := p.errors
      ++ ["expected next token to be " ++ t ++ ", got "
            ++ p.peekToken.type ++ " instead"] }

/-- `expectPeek`: advance on a peek-type match, record an error
otherwise. -/
def expectPeek (p : Parser) (t : String) : Bool × Parser :=
  if p.peekToken.type = t then (true, nextToken p)
  else (false, peekError p t)

/-- `noPrefixParseFnError`. -/
def noPrefixParseFnError (p : Parser) : Parser :=
  { p with errors := p.errors
      ++ ["no prefix parse functions for " ++ p.curToken.type
            ++ " found"] }

/-- The kinds registered in `infixParseFns` (all map to
`parseInfixExpression`). -/
def hasInfixFn (t : String) : Bool :=
  decide (t = token.PLUS ∨ t = token.MINUS ∨ t = token.SLASH
    ∨ t = token.ASTERISK ∨ t = token.EQ ∨ t = token.NOT_EQ
    ∨ t = token.LT ∨ t = token.GT)

def digVal (c : Char) : Option Nat :=
  if 48 ≤ c.toNat ∧ c.toNat ≤ 57 then some (c.toNat - 48) else none

def digitsToNat : List Char → Nat → Option Nat
  | [], acc => some acc
  | c :: cs, acc =>
    match digVal c with
    | none => none
    | some d => digitsToNat cs (acc * 10 + d)

/-- `strconv.ParseInt(s, 0, 64)` on the lexemes the lexer can produce
for INT tokens (non-empty digit strings): the decimal value if it fits
in an int64, `none` on any other input. -/
def parseIntString (s : String) : Option Int :=
  match s.data with
  | [] => none
  | c :: cs =>
    match digitsToNat (c :: cs) 0 with
    | none => none
    | some n => if n < 2 ^ 63 then some (n : Int) else none

/-- `parseIntegerLiteral`: convert the current lexeme, recording an
error (and yielding Go `nil`) when conversion fails. -/
def parseIntegerLiteral (p : Parser) : Option Expr × Parser :=
  match parseIntString p.curToken.literal with
  | some v => (some (.intLit v), p)
  | none => (none, { p with errors := p.errors
      ++ ["couldn't parse " ++ p.curToken.literal ++ " as integer"] })

/-- Modelled from the spec: the rewriting `parseLetStatement` applies to
the parsed value — a function-literal value gets its `name` field set to
the bound identifier, anything else is stored unchanged. -/
def renameFuncLit (name : String) : Option Expr → Option Expr
  | some (.funcLit params body _) => some (.funcLit params body name)
  | v => v

/-- Modelled from the spec: multiple trailing semicolons after a let
statement are consumed. -/
def skipSemicolons : Nat → Parser → Parser
  | 0, p => p
  | fuel + 1, p =>
    if p.peekToken.type = token.SEMICOLON then
      skipSemicolons fuel (nextToken p)
    else p

mutual

/-- `parseExpression(precedence)`: prefix dispatch on the current
token, then the infix loop. -/
def parseExpression : Nat → Parser → Nat → Option Expr × Parser
  | 0, p, _ => (none, p)
  | fuel + 1, p, prec =>
    match parsePrefixDispatch fuel p with
    | (none, p1) => (none, p1)
    | (some left, p1) => parseInfixLoop fuel p1 left prec

/-- The `prefixParseFns` lookup-and-call: IDENT, INT, BANG, MINUS,
TRUE, FALSE, STRING, LPAREN and FUNCTION have prefix parsers (STRING
and FUNCTION per the spec's registration list); otherwise
`noPrefixParseFnError` fires and Go returns `nil`. -/
def parsePrefixDispatch : Nat → Parser → Option Expr × Parser
  | 0, p => (none, p)
  | fuel + 1, p =>
    if p.curToken.type = token.IDENT then
      (some (.ident p.curToken.literal), p)
    else if p.curToken.type = token.INT then
      parseIntegerLiteral p
    else if p.curToken.type = token.BANG
        ∨ p.curToken.type = token.MINUS then
      parsePrefixExpression fuel p
    else if p.curToken.type = token.TRUE
        ∨ p.curToken.type = token.FALSE then
      (some (.boolLit (decide (p.curToken.type = token.TRUE))), p)
    else if p.curToken.type = token.STRING then
      (some (.strLit p.curToken.literal), p)
    else if p.curToken.type = token.LPAREN then
      parseGroupedExpression fuel p
    else if p.curToken.type = token.FUNCTION then
      parseFunctionLiteral fuel p
    else (none, noPrefixParseFnError p)

/-- The loop of `parseExpression`: while the peek token is not `;` and
the binding precedence is below the peek precedence, dispatch to the
registered infix parser. -/
def parseInfixLoop : Nat → Parser → Expr → Nat → Option Expr × Parser
  | 0, p, left, _ => (some left, p)
  | fuel + 1, p, left, prec =>
    if ¬p.peekToken.type = token.SEMICOLON ∧ prec < peekPrecedence p then
      if hasInfixFn p.peekToken.type then
        match parseInfixExpression fuel (nextToken p) left with
        | (some e, p2) => parseInfixLoop fuel p2 e prec
        | (none, p2) => (none, p2)
      else (some left, p)
    else (some left, p)

/-- `parsePrefixExpression` (BANG/MINUS): consume the operator, parse
the operand at PREFIX precedence. -/
def parsePrefixExpression : Nat → Parser → Option Expr × Parser
  | 0, p => (none, p)
  | fuel + 1, p =>
    match parseExpression fuel (nextToken p) PREFIXPREC with
    | (some right, p2) => (some (.prefixExpr p.curToken.literal right), p2)
    | (none, p2) => (none, p2)

/-- `parseInfixExpression`: record the operator and its precedence,
advance, parse the right operand at that precedence. -/
def parseInfixExpression : Nat → Parser → Expr → Option Expr × Parser
  | 0, p, _ => (none, p)
  | fuel + 1, p, left =>
    match parseExpression fuel (nextToken p) (curPrecedence p) with
    | (some right, p2) =>
      (some (.infixExpr p.curToken.literal left right), p2)
    | (none, p2) => (none, p2)

/-- `parseGroupedExpression`: `( expr )`. -/
def parseGroupedExpression : Nat → Parser → Option Expr × Parser
  | 0, p => (none, p)
  | fuel + 1, p =>
    match parseExpression fuel (nextToken p) LOWEST with
    | (e, p2) =>
      match expectPeek p2 token.RPAREN with
      | (true, p3) => (e, p3)
      | (false, p3) => (none, p3)

/-- Modelled from the spec: `fn(params) \x7bbody\x7d`; the `name`
field starts out as the Go zero value `""`. -/
def parseFunctionLiteral : Nat → Parser → Option Expr × Parser
  | 0, p => (none, p)
  | fuel + 1, p =>
    match expectPeek p token.LPAREN with
    | (false, p1) => (none, p1)
    | (true, p1) =>
      match parseFunctionParameters fuel p1 with
      | (none, p2) => (none, p2)
      | (some params, p2) =>
        match expectPeek p2 token.LBRACE with
        | (false, p3) => (none, p3)
        | (true, p3) =>
          match parseBlockStatement fuel p3 with
          | (body, p4) => (some (.funcLit params body ""), p4)

/-- Modelled from the spec: comma-separated identifier parameters up to
the closing parenthesis. -/
def parseFunctionParameters : Nat → Parser → Option (List String) × Parser
  | 0, p => (none, p)
  | fuel + 1, p =>
    if p.peekToken.type = token.RPAREN then (some [], nextToken p)
    else
      match nextToken p with
      | p1 => parseParamsLoop fuel p1 [p1.curToken.literal]

/-- Modelled from the spec: the collection loop of
`parseFunctionParameters`. -/
def parseParamsLoop : Nat → Parser → List String →
    Option (List String) × Parser
  | 0, p, _ => (none, p)
  | fuel + 1, p, acc =>
    if p.peekToken.type = token.COMMA then
      match nextToken (nextToken p) with
      | p1 => parseParamsLoop fuel p1 (acc ++ [p1.curToken.literal])
    else
      match expectPeek p token.RPAREN with
      | (true, p1) => (some acc, p1)
      | (false, p1) => (none, p1)

/-- Modelled from the spec: a block statement collects statements until
the closing brace (or EOF); it is entered on the opening brace. -/
def parseBlockStatement : Nat → Parser → List Stmt × Parser
  | 0, p => ([], p)
  | fuel + 1, p => parseBlockLoop fuel (nextToken p) []

/-- Modelled from the spec: the collection loop of
`parseBlockStatement`; Go drops `nil` statements. -/
def parseBlockLoop : Nat → Parser → List Stmt → List Stmt × Parser
  | 0, p, acc => (acc, p)
  | fuel + 1, p, acc =>
    if p.curToken.type = token.RBRACE ∨ p.curToken.type = token.EOF then
      (acc, p)
    else
      match parseStatement fuel p with
      | (some s, p1) => parseBlockLoop fuel (nextToken p1) (acc ++ [s])
      | (none, p1) => parseBlockLoop fuel (nextToken p1) acc

/-- `parseStatement`: LET → let statement, RETURN → return statement,
otherwise expression statement. -/
def parseStatement : Nat → Parser → Option Stmt × Parser
  | 0, p => (none, p)
  | fuel + 1, p =>
    if p.curToken.type = token.LET then parseLetStatement fuel p
    else if p.curToken.type = token.RETURN then
      parseReturnStatement fuel p
    else parseExpressionStatement fuel p

/-- Modelled from the spec: the final `parseLetStatement`.  After
`let IDENT =` the right-hand side is parsed at LOWEST and stored in the
Value field; a function-literal value has its `name` field set to the
bound identifier; trailing semicolons are consumed.  (The iteration in
the source files still skips the value with a TODO.) -/
def parseLetStatement : Nat → Parser → Option Stmt × Parser
  | 0, p => (none, p)
  | fuel + 1, p =>
    match expectPeek p token.IDENT with
    | (false, p1) => (none, p1)
    | (true, p1) =>
      match expectPeek p1 token.ASSIGN with
      | (false, p2) => (none, p2)
      | (true, p2) =>
        match parseExpression fuel (nextToken p2) LOWEST with
        | (value, p3) =>
          (some (.letStmt p1.curToken.literal
              (renameFuncLit p1.curToken.literal value)),
            skipSemicolons fuel p3)

/-- Modelled from the spec: the final `parseReturnStatement` parses the
return value at LOWEST; an optional trailing semicolon is consumed. -/
def parseReturnStatement : Nat → Parser → Option Stmt × Parser
  | 0, p => (none, p)
  | fuel + 1, p =>
    match parseExpression fuel (nextToken p) LOWEST with
    | (value, p1) =>
      (some (.returnStmt value),
        if p1.peekToken.type = token.SEMICOLON then nextToken p1 else p1)

/-- `parseExpressionStatement`: parse at LOWEST; the trailing semicolon
is optional. -/
def parseExpressionStatement : Nat → Parser → Option Stmt × Parser
  | 0, p => (none, p)
  | fuel + 1, p =>
    match parseExpression fuel p LOWEST with
    | (e, p1) =>
      (some (.exprStmt e),
        if p1.peekToken.type = token.SEMICOLON then nextToken p1 else p1)

end

end Parser

/- ------------------------------------------------------------------ -/
/- Concrete programs used by the claims. -/

/-- The AST of the source `a < b` (one expression statement), as the
parser produces it. -/
def ltProg (a b : Int) : Program :=
  ⟨[.exprStmt (some (.infixExpr "<" (.intLit a) (.intLit b)))]⟩

/-- The AST of the source `1 / 0` (one expression statement). -/
def divProg : Program :=
  ⟨[.exprStmt (some (.infixExpr "/" (.intLit 1) (.intLit 0)))]⟩

/-- The AST of the source `1 + 2` (one expression statement); this
program parses without errors. -/
def onePlusTwo : Program :=
  ⟨[.exprStmt (some (.infixExpr "+" (.intLit 1) (.intLit 2)))]⟩

/-- A statement is a literal expression statement: an expression
statement whose expression is an integer or boolean literal — exactly
the expression forms both the cited `evaluator.Eval` and the cited VM
support. -/
def isLitStmt : Stmt → Bool
  | .exprStmt (some (.intLit _)) => true
  | .exprStmt (some (.boolLit _)) => true
  | _ => false

/-- The object a literal expression statement evaluates to. -/
def litObject : Stmt → Object
  | .exprStmt (some (.intLit v)) => .int v
  | .exprStmt (some (.boolLit b)) => Evaluator.nativeBoolToBooleanObject b
  | _ => .int 0

/-- The bytecode the compiler emits for one literal expression statement
whose (integer) constant, if any, lands at pool index `k`: `OpConstant k`
(big-endian operand) or `OpTrue`/`OpFalse`, followed by `OpPop`. -/
def litInstr (k : Nat) : Stmt → List Nat
  | .exprStmt (some (.intLit _)) => [Code.OpConstant, k / 256, k % 256, Code.OpPop]
  | .exprStmt (some (.boolLit b)) =>
    [if b then Code.OpTrue else Code.OpFalse, Code.OpPop]
  | _ => []

/-- The constants one literal expression statement adds to the pool. -/
def litConsts : Stmt → List Object
  | .exprStmt (some (.intLit v)) => [Object.int v]
  | _ => []

/-- The instructions and constants the compiler produces for a list of
literal expression statements, with the constant pool already holding
`k` entries. -/
def litsCode : List Stmt → Nat → List Nat × List Object
  | [], _ => ([], [])
  | s :: rest, k =>
    (litInstr k s ++ (litsCode rest (k + (litConsts s).length)).1,
     litConsts s ++ (litsCode rest (k + (litConsts s).length)).2)

end Monkey

namespace Monkey

/-- Every definition in the `definitions` map has operand widths `[]` or
`[2]`. -/
theorem Code.lookup_widths {op : Nat} {d : Code.Definition}
    (h : Code.lookup op = some d) :
    d.operandWidths = [] ∨ d.operandWidths = [2] := by
  unfold Code.lookup at h
  split at h <;> (try cases h) <;> simp

/-- C2: `Make` and `ReadOperands` are exact inverses.  For every opcode
`op` that has a definition `d` and every operand list matching `d`'s
operand widths (each operand a non-negative value fitting its width),
`ReadOperands(d, Make(op, operands)[1:])` returns exactly the operand
list together with the total operand width in bytes; and every
multi-byte operand (all of which have width 2 here) is laid out
big-endian: most significant byte first. -/
theorem make_readOperands_roundtrip (op : Nat) (d : Code.Definition)
    (operands : List Int)
    (hdef : Code.lookup op = some d)
    (hfit : Code.fitsWidths operands d.operandWidths) :
    Code.readOperands d ((Code.make op operands).drop 1)
        = some (operands, d.operandWidths.sum) ∧
    ∀ o : Int, operands = [o] → d.operandWidths = [2] →
      (Code.make op operands).drop 1 = [o.toNat / 256, o.toNat % 256] := by
  rcases Code.lookup_widths hdef with hw | hw
  · obtain ⟨hlen, -⟩ := hfit
    rw [hw] at hlen
    have hops : operands = [] := List.eq_nil_of_length_eq_zero (by simpa using hlen)
    subst hops
    refine ⟨?_, ?_⟩
    · simp [Code.make, hdef, hw, Code.writeOperands, Code.readOperands,
        Code.readLoop]
    · intro o h1 _
      simp at h1
  · obtain ⟨hlen, hbound⟩ := hfit
    rw [hw] at hlen hbound
    obtain ⟨o, hops⟩ := List.length_eq_one.mp (by simpa using hlen)
    subst hops
    obtain ⟨h0, hlt⟩ := hbound (o, 2) (by simp)
    have hlt' : o < 65536 := by norm_num at hlt; omega
    have hemod : o.emod 65536 = o := Int.emod_eq_of_lt h0 (by omega)
    have htn : ((o.toNat : Int)) = o := Int.toNat_of_nonneg h0
    refine ⟨?_, ?_⟩
    · simp only [Code.make, hdef, hw, Code.writeOperands, Code.putUint16,
        Code.readOperands, Code.readLoop, Code.readUint16]
      norm_num [List.replicate, hemod]
      have hsup : o ⊔ 0 = o := sup_eq_left.mpr h0
      rw [hsup]
      omega
    · intro o' h1 _
      obtain rfl : o' = o := by simpa using h1.symm
      simp only [Code.make, hdef, hw, Code.writeOperands, Code.putUint16,
        Code.readUint16]
      norm_num [List.replicate, hemod]

/-- A successful `push` happens exactly below the stack-size bound and
writes the pushed object at `stack[sp]`, incrementing `sp`. -/
theorem VM.push_ok {vm : VM.VM} {o : Object} {vm' : VM.VM}
    (h : VM.push vm o = .ok vm') :
    vm.sp < VM.stackSize ∧
    vm' = { vm with stack := vm.stack.set vm.sp (some o), sp := vm.sp + 1 } := by
  unfold VM.push at h
  by_cases hle : VM.stackSize ≤ vm.sp
  · rw [if_pos hle] at h; cases h
  · rw [if_neg hle] at h; cases h; exact ⟨by omega, rfl⟩

/-- The stack pointer after a successful `push` stays within the bound. -/
theorem VM.push_sp_le {vm : VM.VM} {o : Object} {vm' : VM.VM}
    (h : VM.push vm o = .ok vm') : vm'.sp ≤ VM.stackSize := by
  obtain ⟨hlt, rfl⟩ := VM.push_ok h
  simpa using hlt

/-- A successful `pop` requires a non-empty stack, returns the object
stored at `stack[sp-1]`, and only decrements `sp`. -/
theorem VM.pop_ok {vm : VM.VM} {o : Object} {vm' : VM.VM}
    (h : VM.pop vm = .ok (o, vm')) :
    0 < vm.sp ∧ vm.stack.get? (vm.sp - 1) = some (some o) ∧
    vm' = { vm with sp := vm.sp - 1 } := by
  unfold VM.pop at h
  by_cases h0 : vm.sp = 0
  · rw [if_pos h0] at h; cases h
  · rw [if_neg h0] at h
    split at h
    · rename_i heq
      cases h
      exact ⟨by omega, heq, rfl⟩
    · cases h

/-- `executeBinaryIntegerOperation` only ever pushes, so a successful
result respects the stack bound. -/
theorem VM.execBinInt_sp {vm : VM.VM} {op : Nat} {l r : Object} {vm' : VM.VM}
    (h : VM.executeBinaryIntegerOperation vm op l r = .ok vm') :
    vm'.sp ≤ VM.stackSize := by
  unfold VM.executeBinaryIntegerOperation at h
  split at h
  · split at h
    · exact VM.push_sp_le h
    · split at h
      · exact VM.push_sp_le h
      · split at h
        · exact VM.push_sp_le h
        · split at h
          · split at h
            · cases h
            · exact VM.push_sp_le h
          · cases h
  · cases h

/-- `executeIntegerComparison` only ever pushes, so a successful result
respects the stack bound. -/
theorem VM.execIntCmp_sp {vm : VM.VM} {op : Nat} {l r : Object} {vm' : VM.VM}
    (h : VM.executeIntegerComparison vm op l r = .ok vm') :
    vm'.sp ≤ VM.stackSize := by
  unfold VM.executeIntegerComparison at h
  split at h
  · split at h
    · exact VM.push_sp_le h
    · split at h
      · exact VM.push_sp_le h
      · split at h
        · exact VM.push_sp_le h
        · cases h
  · cases h

/-- A successful binary operation leaves the stack pointer within the
bound. -/
theorem VM.execBinOp_sp {vm : VM.VM} {op : Nat} {vm' : VM.VM}
    (h : VM.executeBinaryOperation vm op = .ok vm') :
    vm'.sp ≤ VM.stackSize := by
  unfold VM.executeBinaryOperation at h
  rcases hp1 : VM.pop vm with e1 | pr1
  · rw [hp1] at h; cases h
  · obtain ⟨right, vm1⟩ := pr1
    rw [hp1] at h
    simp only [bind, Except.bind] at h
    rcases hp2 : VM.pop vm1 with e2 | pr2
    · rw [hp2] at h; cases h
    · obtain ⟨left, vm2⟩ := pr2
      rw [hp2] at h
      simp only [] at h
      split at h
      · exact VM.execBinInt_sp h
      · cases h

/-- A successful comparison leaves the stack pointer within the bound. -/
theorem VM.execCmp_sp {vm : VM.VM} {op : Nat} {vm' : VM.VM}
    (h : VM.executeComparison vm op = .ok vm') :
    vm'.sp ≤ VM.stackSize := by
  unfold VM.executeComparison at h
  rcases hp1 : VM.pop vm with e1 | pr1
  · rw [hp1] at h; cases h
  · obtain ⟨right, vm1⟩ := pr1
    rw [hp1] at h
    simp only [bind, Except.bind] at h
    rcases hp2 : VM.pop vm1 with e2 | pr2
    · rw [hp2] at h; cases h
    · obtain ⟨left, vm2⟩ := pr2
      rw [hp2] at h
      simp only [] at h
      split at h
      · exact VM.execIntCmp_sp h
      · split at h
        · exact VM.push_sp_le h
        · split at h
          · exact VM.push_sp_le h
          · cases h

/-- The switch body of one loop iteration preserves the stack-pointer
bound. -/
theorem VM.execOp_sp {vm : VM.VM} {ip op : Nat} {vm' : VM.VM} {ip' : Nat}
    (hsp : vm.sp ≤ VM.stackSize) (h : VM.execOp vm ip op = .ok (vm', ip')) :
    vm'.sp ≤ VM.stackSize := by
  unfold VM.execOp at h
  split at h
  · split at h
    · cases h
    · split at h
      · cases h
      · split at h
        · cases h
        · rename_i hpush
          cases h
          exact VM.push_sp_le hpush
  · split at h
    · split at h
      · cases h
      · rename_i hbin
        cases h
        exact VM.execBinOp_sp hbin
    · split at h
      · split at h
        · cases h
        · rename_i hpop
          cases h
          obtain ⟨-, -, rfl⟩ := VM.pop_ok hpop
          simpa using Nat.le_trans (Nat.sub_le _ _) hsp
      · split at h
        · split at h
          · cases h
          · rename_i hpush
            cases h
            exact VM.push_sp_le hpush
        · split at h
          · split at h
            · cases h
            · rename_i hpush
              cases h
              exact VM.push_sp_le hpush
          · split at h
            · split at h
              · cases h
              · rename_i hcmp
                cases h
                exact VM.execCmp_sp hcmp
            · cases h
              exact hsp

/-- One loop iteration preserves the stack-pointer bound. -/
theorem VM.runStep_sp {vm : VM.VM} {ip : Nat} {vm' : VM.VM} {ip' : Nat}
    (hsp : vm.sp ≤ VM.stackSize) (h : VM.runStep vm ip = .ok (vm', ip')) :
    vm'.sp ≤ VM.stackSize :=
  VM.execOp_sp hsp h

/-- Every configuration reachable by the run loop keeps `sp` within the
bound. -/
theorem VM.reachable_sp {p q : VM.VM × Nat}
    (h : VM.reachable p q) (hsp : p.1.sp ≤ VM.stackSize) :
    q.1.sp ≤ VM.stackSize := by
  induction h with
  | refl => exact hsp
  | tail _ hstep ih => exact VM.runStep_sp ih hstep.2

/-- `runFrom` preserves the stack-pointer bound. -/
theorem VM.runFrom_sp {fuel : Nat} :
    ∀ {vm : VM.VM} {ip : Nat} {vm' : VM.VM}, vm.sp ≤ VM.stackSize →
      VM.runFrom vm ip fuel = .ok vm' → vm'.sp ≤ VM.stackSize := by
  induction fuel with
  | zero => intro vm ip vm' hsp h; cases h; exact hsp
  | succ fuel ih =>
    intro vm ip vm' hsp h
    unfold VM.runFrom at h
    split at h
    · split at h
      · cases h
      · rename_i hstep
        exact ih (VM.runStep_sp hsp hstep) h
    · cases h; exact hsp

/-- Unfolding equation: the loop with no fuel left. -/
theorem VM.runFrom_zero (vm : VM.VM) (ip : Nat) :
    VM.runFrom vm ip 0 = .ok vm := rfl

/-- Unfolding equation: one more loop iteration. -/
theorem VM.runFrom_succ (vm : VM.VM) (ip fuel : Nat) :
    VM.runFrom vm ip (fuel + 1) =
      if ip < vm.instructions.length then
        match VM.runStep vm ip with
        | .error e => .error e
        | .ok (vm', ip') => VM.runFrom vm' ip' fuel
      else .ok vm := rfl

/-- Reading any position of a replicated instruction list yields the
replicated opcode. -/
theorem VM.getD_replicate {n i a : Nat} (h : i < n) :
    (List.replicate n a).getD i 0 = a := by
  simp [List.getD_eq_getElem?_getD, List.getElem?_replicate, h]

/-- Dispatching `OpTrue` pushes the `True` singleton. -/
theorem VM.execOp_optrue (vm : VM.VM) (ip : Nat) :
    VM.execOp vm ip Code.OpTrue =
      match VM.push vm VM.trueObj with
      | .error e => .error e
      | .ok vm' => .ok (vm', ip + 1) := rfl

/-- Below the bound, `push` succeeds and produces the updated state. -/
theorem VM.push_new_state (vm : VM.VM) (o : Object) (h : vm.sp < VM.stackSize) :
    VM.push vm o = .ok
      { vm with stack := vm.stack.set vm.sp (some o), sp := vm.sp + 1 } := by
  unfold VM.push
  rw [if_neg (by omega)]

/-- Running a program of `n` `OpTrue` instructions from position `ip`:
if the `n - ip` pending pushes fit the stack the run succeeds and `sp`
grows by exactly that amount; otherwise `Run` stops with the
`stack overflow` runtime error. -/
theorem VM.runFrom_optrue {n : Nat} :
    ∀ (fuel : Nat) (vm : VM.VM) (ip : Nat),
      vm.instructions = List.replicate n Code.OpTrue →
      n - ip ≤ fuel → vm.sp ≤ VM.stackSize →
      (vm.sp + (n - ip) ≤ VM.stackSize →
        ∃ vm', VM.runFrom vm ip fuel = .ok vm' ∧ vm'.sp = vm.sp + (n - ip)) ∧
      (VM.stackSize < vm.sp + (n - ip) →
        VM.runFrom vm ip fuel = .error (.runtimeError "stack overflow")) := by
  intro fuel
  induction fuel with
  | zero =>
    intro vm ip hins hfuel hsp
    have h0 : n - ip = 0 := by omega
    rw [h0]
    exact ⟨fun _ => ⟨vm, rfl, by omega⟩, fun hlt => absurd hlt (by omega)⟩
  | succ fuel ih =>
    intro vm ip hins hfuel hsp
    by_cases hip : ip < vm.instructions.length
    · have hipn : ip < n := by rwa [hins, List.length_replicate] at hip
      have hop : vm.instructions.getD ip 0 = Code.OpTrue := by
        rw [hins]; exact VM.getD_replicate hipn
      by_cases hfull : VM.stackSize ≤ vm.sp
      · have hpush : VM.push vm VM.trueObj
            = .error (.runtimeError "stack overflow") := by
          unfold VM.push; rw [if_pos hfull]
        have hstep : VM.runStep vm ip
            = .error (.runtimeError "stack overflow") := by
          unfold VM.runStep
          rw [hop, VM.execOp_optrue, hpush]
        refine ⟨fun hle => absurd hle (by omega), fun _ => ?_⟩
        rw [VM.runFrom_succ, if_pos hip, hstep]
      · have hpush := VM.push_new_state vm VM.trueObj (by omega)
        have hstep : VM.runStep vm ip = .ok
            ({ vm with stack := vm.stack.set vm.sp (some VM.trueObj)
                       sp := vm.sp + 1 }, ip + 1) := by
          unfold VM.runStep
          rw [hop, VM.execOp_optrue, hpush]
        have hb : vm.sp + 1 ≤ VM.stackSize := by omega
        have harith : vm.sp + 1 + (n - (ip + 1)) = vm.sp + (n - ip) := by omega
        have hrec := ih { vm with stack := vm.stack.set vm.sp (some VM.trueObj)
                                  sp := vm.sp + 1 } (ip + 1) hins (by omega) hb
        constructor
        · intro hle
          have hfit : vm.sp + 1 + (n - (ip + 1)) ≤ VM.stackSize := by
            rw [harith]; exact hle
          obtain ⟨vm', hrun, hsp'⟩ := hrec.1 hfit
          have hsp2 : vm'.sp = vm.sp + 1 + (n - (ip + 1)) := hsp'
          refine ⟨vm', ?_, ?_⟩
          · rw [VM.runFrom_succ, if_pos hip, hstep]; exact hrun
          · rw [hsp2, harith]
        · intro hgt
          have hfit2 : VM.stackSize < vm.sp + 1 + (n - (ip + 1)) := by
            rw [harith]; exact hgt
          have herr := hrec.2 hfit2
          rw [VM.runFrom_succ, if_pos hip, hstep]; exact herr
    · have hipn : n ≤ ip := by
        rw [hins, List.length_replicate] at hip; omega
      have h0 : n - ip = 0 := by omega
      rw [h0]
      refine ⟨fun _ => ⟨vm, ?_, by omega⟩, fun hlt => absurd hlt (by omega)⟩
      rw [VM.runFrom_succ, if_neg hip]

/-- C3: the VM value stack never exceeds 2048 slots.
(1) Whenever `sp` is at least `StackSize` (2048), any attempted push
returns the `stack overflow` runtime error to the caller instead of
panicking; (2) every configuration the run loop can reach from a freshly
created VM has `sp ≤ 2048`; (3) concretely, `Run` on a program of 2049
`OpTrue` pushes stops and returns the `stack overflow` error. -/
theorem stack_overflow_guard :
    (∀ (vm : VM.VM) (o : Object), VM.stackSize ≤ vm.sp →
      VM.push vm o = .error (.runtimeError "stack overflow")) ∧
    (∀ (bc : VM.Bytecode) (p : VM.VM × Nat),
      VM.reachable (VM.new bc, 0) p → p.1.sp ≤ VM.stackSize) ∧
    VM.run (VM.new ⟨List.replicate 2049 Code.OpTrue, []⟩)
      = .error (.runtimeError "stack overflow") := by
  refine ⟨?_, ?_, ?_⟩
  · intro vm o h
    unfold VM.push
    rw [if_pos h]
  · intro bc p h
    exact VM.reachable_sp h (Nat.zero_le _)
  · have hlem := (VM.runFrom_optrue (n := 2049) 2049
      (VM.new ⟨List.replicate 2049 Code.OpTrue, []⟩) 0 rfl (by omega)
      (Nat.zero_le _)).2
    have herr := hlem (by show VM.stackSize < 0 + (2049 - 0); norm_num [VM.stackSize])
    unfold VM.run
    have hlen : (VM.new ⟨List.replicate 2049 Code.OpTrue, []⟩).instructions.length
        = 2049 := by
      show (List.replicate 2049 Code.OpTrue).length = 2049
      rw [List.length_replicate]
    rw [hlen]
    exact herr

/-- Witness for C3: the hypotheses are discharged at a concrete full VM
(`sp = 2048`) and at the initial configuration of a fresh VM. -/
theorem stack_overflow_guard_witness :
    VM.push ⟨[], [], List.replicate 2048 none, 2048⟩ (.int 1)
        = .error (.runtimeError "stack overflow") ∧
    (VM.new ⟨[], []⟩, 0).1.sp ≤ VM.stackSize :=
  ⟨stack_overflow_guard.1 ⟨[], [], List.replicate 2048 none, 2048⟩ (.int 1)
      le_rfl,
    stack_overflow_guard.2.1 ⟨[], []⟩ (VM.new ⟨[], []⟩, 0) .refl⟩

/-- C7: `sp` indexes the next free slot.  (1) A push stores the object at
`stack[sp]` (the next free slot) and increments `sp`; (2) a pop returns
the value at `stack[sp-1]`, merely decrements `sp` leaving the stack
contents untouched, so immediately after the pop the popped value is
still stored at `stack[sp]`; and (3) `LastPoppedStackElem` returns
`stack[sp]`. -/
theorem sp_next_free_slot :
    (∀ (vm : VM.VM) (o : Object), vm.sp < VM.stackSize →
      vm.stack.length = VM.stackSize →
      ∃ vm', VM.push vm o = .ok vm' ∧ vm'.sp = vm.sp + 1 ∧
        vm'.stack.get? vm.sp = some (some o)) ∧
    (∀ (vm : VM.VM) (o : Object) (vm' : VM.VM), VM.pop vm = .ok (o, vm') →
      vm'.sp = vm.sp - 1 ∧ vm'.stack = vm.stack ∧
      vm'.stack.get? vm'.sp = some (some o) ∧
      VM.lastPoppedStackElem vm' = some o) ∧
    (∀ vm : VM.VM, VM.lastPoppedStackElem vm = vm.stack.getD vm.sp none) := by
  refine ⟨?_, ?_, fun _ => rfl⟩
  · intro vm o hlt hlen
    refine ⟨{ vm with
        stack := vm.stack.set vm.sp (some o)
        sp := vm.sp + 1 }, ?_, rfl, ?_⟩
    · exact VM.push_new_state vm o hlt
    · show (vm.stack.set vm.sp (some o)).get? vm.sp = some (some o)
      rw [List.get?_eq_getElem?]
      rw [List.getElem?_set_self (by omega)]
  · intro vm o vm' h
    obtain ⟨hpos, hget, rfl⟩ := VM.pop_ok h
    refine ⟨rfl, rfl, hget, ?_⟩
    unfold VM.lastPoppedStackElem
    simp only [List.getD_eq_getElem?_getD, ← List.get?_eq_getElem?]
    rw [hget]
    rfl

/-- Witness for C7 at a concrete state: a fresh 2048-slot stack holding
one value `7` at slot 0 with `sp = 1`. -/
theorem sp_next_free_slot_witness :
    (∃ vm', VM.push ⟨[], [], List.replicate 2048 none, 0⟩ (.int 5) = .ok vm' ∧
      vm'.sp = 1 ∧ vm'.stack.get? 0 = some (some (.int 5))) ∧
    ∀ vm' : VM.VM,
      VM.pop ⟨[], [], (List.replicate 2048 none).set 0 (some (.int 7)), 1⟩
          = .ok (.int 7, vm') →
      vm'.sp = 0 ∧
      vm'.stack = (List.replicate 2048 none).set 0 (some (.int 7)) ∧
      vm'.stack.get? vm'.sp = some (some (.int 7)) ∧
      VM.lastPoppedStackElem vm' = some (.int 7) := by
  constructor
  · have hp := sp_next_free_slot.1 ⟨[], [], List.replicate 2048 none, 0⟩ (.int 5)
      (by decide)
      (by show (List.replicate 2048 (none : Option Object)).length = 2048
          rw [List.length_replicate])
    exact hp
  · intro vm' h
    exact sp_next_free_slot.2.1 _ (.int 7) vm' h

/-- C10: stack underflow is unguarded.  `pop` reads `stack[sp-1]` without
verifying `sp > 0`, so popping an empty stack indexes the slice at `-1`
and panics (crashing the host) instead of returning a runtime error; in
particular `Run` on the single-instruction program `OpPop` — whose pops
outnumber prior pushes — crashes, as does `Run` on the single instruction
`OpAdd`. -/
theorem pop_underflow_crash :
    (∀ vm : VM.VM, vm.sp = 0 →
      VM.pop vm = .error (.goPanic "index out of range")) ∧
    VM.run (VM.new ⟨[Code.OpPop], []⟩)
        = .error (.goPanic "index out of range") ∧
    VM.run (VM.new ⟨[Code.OpAdd], []⟩)
        = .error (.goPanic "index out of range") := by
  refine ⟨?_, rfl, rfl⟩
  intro vm h
  unfold VM.pop
  rw [if_pos h]

/-- Witness for C10: the popping behaviour at a concrete empty-stack VM. -/
theorem pop_underflow_crash_witness :
    VM.pop (VM.new ⟨[Code.OpPop], []⟩)
        = .error (.goPanic "index out of range") :=
  pop_underflow_crash.1 (VM.new ⟨[Code.OpPop], []⟩) rfl

/-- Witness for C2 at a concrete input: `OpConstant` (opcode 0, one
operand of width 2) with operand 65534 = 0xFFFE round-trips, and its
encoding is big-endian `[255, 254]`. -/
theorem make_readOperands_roundtrip_witness :
    Code.lookup 0 = some ⟨"OpConstant", [2]⟩ ∧
    Code.fitsWidths [(65534 : Int)] [2] ∧
    (Code.readOperands ⟨"OpConstant", [2]⟩ ((Code.make 0 [(65534 : Int)]).drop 1)
        = some ([(65534 : Int)], 2) ∧
      ∀ o : Int, [(65534 : Int)] = [o] → ([2] : List Nat) = [2] →
        (Code.make 0 [(65534 : Int)]).drop 1 = [o.toNat / 256, o.toNat % 256]) :=
  ⟨by decide, by decide,
    make_readOperands_roundtrip 0 ⟨"OpConstant", [2]⟩ [(65534 : Int)]
      (by decide) (by decide)⟩

/-- C4 (`code_bug` evidence): executing compiled `1 / 0` does not return
a runtime error value — `executeBinaryIntegerOperation` computes
`leftValue / rightValue` without guarding the divisor, so the Go runtime
panics (`integer divide by zero`) and the host process crashes. -/
theorem division_by_zero_crash :
    Compiler.compileProgram divProg
        = .ok ⟨[0, 0, 0, 0, 0, 1, 5, 2], [.int 1, .int 0]⟩ ∧
    VM.run (VM.new ⟨[0, 0, 0, 0, 0, 1, 5, 2], [.int 1, .int 0]⟩)
        = .error (.goPanic "integer divide by zero") :=
  ⟨rfl, rfl⟩

/-- C6: compiling `l < r` emits code for the right operand, then code
for the left operand, then `OpGreaterThan`; consequently, for all
integer literals `a`, `b`, compiling and running the expression
statement `a < b` leaves the `True` singleton as the last popped value
iff `a < b`. -/
theorem less_than_compiles_swapped :
    (∀ (c : Compiler.Compiler) (l r : Expr) (c1 c2 : Compiler.Compiler),
      Compiler.compileExpr c r = .ok c1 →
      Compiler.compileExpr c1 l = .ok c2 →
      Compiler.compileExpr c (.infixExpr "<" l r)
        = .ok (Compiler.emit c2 Code.OpGreaterThan [])) ∧
    (∀ a b : Int,
      Compiler.compileProgram (ltProg a b)
          = .ok ⟨[0, 0, 0, 0, 0, 1, 10, 2], [.int b, .int a]⟩ ∧
      ∃ vmf, VM.run (VM.new ⟨[0, 0, 0, 0, 0, 1, 10, 2], [.int b, .int a]⟩)
          = .ok vmf ∧
        ((VM.lastPoppedStackElem vmf = some VM.trueObj) ↔ a < b)) := by
  constructor
  · intro c l r c1 c2 h1 h2
    simp [Compiler.compileExpr, h1, h2]
  · intro a b
    have hcomp : Compiler.compileProgram (ltProg a b)
        = .ok ⟨[0, 0, 0, 0, 0, 1, 10, 2], [.int b, .int a]⟩ := by
      simp [Compiler.compileProgram, Compiler.compileStmts,
        Compiler.compileStmt, Compiler.compileMaybeExpr, Compiler.compileExpr,
        Compiler.emit, Compiler.addConstant, Compiler.new, ltProg,
        Code.make, Code.lookup, Code.putUint16, Code.writeOperands,
        Code.OpConstant, Code.OpGreaterThan, Code.OpPop]
      norm_num
    have hrun : VM.run (VM.new ⟨[0, 0, 0, 0, 0, 1, 10, 2], [.int b, .int a]⟩)
        = .ok ⟨[.int b, .int a], [0, 0, 0, 0, 0, 1, 10, 2],
            (((List.replicate 2048 none).set 0 (some (.int b))).set 1
                (some (.int a))).set 0
              (some (VM.nativeBoolToBooleanObject (decide (a < b)))), 0⟩ := rfl
    refine ⟨hcomp, ⟨_, hrun, ?_⟩⟩
    have hlp : VM.lastPoppedStackElem
        ⟨[.int b, .int a], [0, 0, 0, 0, 0, 1, 10, 2],
          (((List.replicate 2048 none).set 0 (some (.int b))).set 1
              (some (.int a))).set 0
            (some (VM.nativeBoolToBooleanObject (decide (a < b)))), 0⟩
        = some (VM.nativeBoolToBooleanObject (decide (a < b))) := rfl
    rw [hlp]
    by_cases h : a < b
    · simp [VM.nativeBoolToBooleanObject, VM.trueObj, h]
    · simp [VM.nativeBoolToBooleanObject, VM.trueObj, VM.falseObj, h]

/-- Witness for C6 at concrete operands: applying the theorem at
`c = new`, `l = IntegerLiteral 1`, `r = IntegerLiteral 2`, and at
`a = 1 < b = 2`, where the run leaves `True` popped last. -/
theorem less_than_compiles_swapped_witness :
    Compiler.compileExpr Compiler.new (.infixExpr "<" (.intLit 1) (.intLit 2))
        = .ok (Compiler.emit
            ⟨[.int 2, .int 1], [0, 0, 0, 0, 0, 1]⟩ Code.OpGreaterThan []) ∧
    (Compiler.compileProgram (ltProg 1 2)
        = .ok ⟨[0, 0, 0, 0, 0, 1, 10, 2], [.int 2, .int 1]⟩ ∧
      ∃ vmf, VM.run (VM.new ⟨[0, 0, 0, 0, 0, 1, 10, 2], [.int 2, .int 1]⟩)
          = .ok vmf ∧
        ((VM.lastPoppedStackElem vmf = some VM.trueObj) ↔ (1 : Int) < 2)) :=
  ⟨less_than_compiles_swapped.1 Compiler.new (.intLit 1) (.intLit 2)
      ⟨[.int 2], [0, 0, 0]⟩ ⟨[.int 2, .int 1], [0, 0, 0, 0, 0, 1]⟩ rfl rfl,
    less_than_compiles_swapped.2 1 2⟩

/-- Reading past a prefix of a byte list. -/
theorem getD_append_right (pre l : List Nat) (i : Nat) :
    (pre ++ l).getD (pre.length + i) 0 = l.getD i 0 := by
  simp [List.getD_eq_getElem?_getD, List.getElem?_append_right]

/-- Dropping past a prefix of a byte list. -/
theorem drop_append_len (pre l : List Nat) (i : Nat) :
    (pre ++ l).drop (pre.length + i) = l.drop i := by
  rw [List.drop_append]

/-- Indexing past a prefix of the constant pool. -/
theorem get?_append_len (pre l : List Object) (i : Nat) :
    (pre ++ l).get? (pre.length + i) = l.get? i := by
  simp [List.get?_eq_getElem?, List.getElem?_append_right]

/-- Dispatching `OpConstant`: decode the big-endian operand, fetch the
constant, push it, and skip the operand bytes. -/
theorem VM.execOp_opconst (vm : VM.VM) (ip : Nat) :
    VM.execOp vm ip Code.OpConstant =
      match Code.readUint16 (vm.instructions.drop (ip + 1)) with
      | none => .error (.goPanic "slice bounds out of range")
      | some constIndex =>
        match vm.constants.get? constIndex with
        | none => .error (.goPanic "index out of range")
        | some c =>
          match VM.push vm c with
          | .error e => .error e
          | .ok vm' => .ok (vm', ip + 3) := rfl

/-- Dispatching `OpPop` pops the top of the stack. -/
theorem VM.execOp_oppop (vm : VM.VM) (ip : Nat) :
    VM.execOp vm ip Code.OpPop =
      match VM.pop vm with
      | .error e => .error e
      | .ok (_, vm') => .ok (vm', ip + 1) := rfl

/-- Dispatching `OpFalse` pushes the `False` singleton. -/
theorem VM.execOp_opfalse (vm : VM.VM) (ip : Nat) :
    VM.execOp vm ip Code.OpFalse =
      match VM.push vm VM.falseObj with
      | .error e => .error e
      | .ok vm' => .ok (vm', ip + 1) := rfl

/-- One successful loop iteration unfolds `runFrom`. -/
theorem VM.runFrom_step {vm vm' : VM.VM} {ip ip' : Nat} (fuel : Nat)
    (hip : ip < vm.instructions.length)
    (hstep : VM.runStep vm ip = .ok (vm', ip')) :
    VM.runFrom vm ip (fuel + 1) = VM.runFrom vm' ip' fuel := by
  rw [VM.runFrom_succ, if_pos hip, hstep]

/-- Popping a stack whose single element sits in slot 0. -/
theorem VM.pop_at (vm : VM.VM) (o : Object) (hsp : vm.sp = 1)
    (hget : vm.stack.get? 0 = some (some o)) :
    VM.pop vm = .ok (o, { vm with sp := 0 }) := by
  unfold VM.pop
  rw [if_neg (by omega), hsp]
  norm_num
  rw [List.get?_eq_getElem?] at hget
  rw [hget]

/-- Encoding `OpConstant k` for a pool index below `2^16`. -/
theorem Code.make_opconstant (k : Nat) (hk : k < 65536) :
    Code.make Code.OpConstant [(k : Int)]
      = [Code.OpConstant, k / 256, k % 256] := by
  have h1 : (k : Int).emod 65536 = (k : Int) :=
    Int.emod_eq_of_lt (by positivity) (by exact_mod_cast hk)
  have hmod : ((k : Int).emod 65536).toNat = k := by rw [h1]; omega
  simp [Code.make, Code.lookup, Code.writeOperands, Code.putUint16, hmod,
    Code.OpConstant, List.replicate]

/-- A literal expression statement evaluates to its literal object. -/
theorem evalStmt_lit (s : Stmt) (h : isLitStmt s = true) :
    Evaluator.evalStmt s = some (litObject s) := by
  match s, h with
  | .exprStmt (some (.intLit v)), _ => rfl
  | .exprStmt (some (.boolLit b)), _ => rfl

/-- `evalStatements` returns the value of the last statement. -/
theorem evalStatements_last :
    ∀ (stmts : List Stmt) (s : Stmt), stmts.getLast? = some s →
      Evaluator.evalStatements stmts = Evaluator.evalStmt s := by
  intro stmts
  induction stmts with
  | nil => intro s h; cases h
  | cons a t ih =>
    intro s h
    cases t with
    | nil =>
      obtain rfl : a = s := by simpa using h
      rfl
    | cons b t2 =>
      rw [List.getLast?_cons_cons] at h
      exact ih s h

/-- Compiling a list of literal expression statements produces exactly
the instructions and constants described by `litsCode`. -/
theorem compileStmts_lits :
    ∀ (stmts : List Stmt) (c : Compiler.Compiler),
      (∀ s ∈ stmts, isLitStmt s = true) →
      c.constants.length + stmts.length ≤ 65536 →
      Compiler.compileStmts c stmts = .ok
        ⟨c.constants ++ (litsCode stmts c.constants.length).2,
         c.instructions ++ (litsCode stmts c.constants.length).1⟩ := by
  intro stmts
  induction stmts with
  | nil =>
    intro c _ _
    simp [Compiler.compileStmts, litsCode]
  | cons s rest ih =>
    intro c hlit hbound
    have hs := hlit s (by simp)
    have hrest : ∀ s' ∈ rest, isLitStmt s' = true := fun s' hm => hlit s' (by simp [hm])
    match s, hs with
    | .exprStmt (some (.intLit v)), _ =>
      have hk : c.constants.length < 65536 := by
        simp at hbound; omega
      have hstep : Compiler.compileStmt c (.exprStmt (some (.intLit v)))
          = .ok ⟨c.constants ++ [.int v],
              c.instructions ++ [Code.OpConstant, c.constants.length / 256,
                c.constants.length % 256, Code.OpPop]⟩ := by
        simp [Compiler.compileStmt, Compiler.compileMaybeExpr,
          Compiler.compileExpr, Compiler.addConstant, Compiler.emit,
          Code.make_opconstant _ hk]
        rfl
      have hrec := ih ⟨c.constants ++ [.int v],
          c.instructions ++ [Code.OpConstant, c.constants.length / 256,
            c.constants.length % 256, Code.OpPop]⟩ hrest
        (by simp at hbound ⊢; omega)
      have hcs : Compiler.compileStmts c (Stmt.exprStmt (some (Expr.intLit v)) :: rest)
          = Compiler.compileStmts ⟨c.constants ++ [.int v],
              c.instructions ++ [Code.OpConstant, c.constants.length / 256,
                c.constants.length % 256, Code.OpPop]⟩ rest := by
        simp only [Compiler.compileStmts]
        rw [hstep]
      rw [hcs, hrec]
      simp [litsCode, litInstr, litConsts]
    | .exprStmt (some (.boolLit b)), _ =>
      have hstep : Compiler.compileStmt c (.exprStmt (some (.boolLit b)))
          = .ok ⟨c.constants,
              c.instructions ++ [if b then Code.OpTrue else Code.OpFalse,
                Code.OpPop]⟩ := by
        cases b <;>
          simp [Compiler.compileStmt, Compiler.compileMaybeExpr,
            Compiler.compileExpr, Compiler.emit, Code.make, Code.lookup,
            Code.writeOperands, Code.OpTrue, Code.OpFalse, Code.OpPop,
            List.replicate]
      have hrec := ih ⟨c.constants,
          c.instructions ++ [if b then Code.OpTrue else Code.OpFalse,
            Code.OpPop]⟩ hrest
        (by simp at hbound ⊢; omega)
      have hcs : Compiler.compileStmts c (Stmt.exprStmt (some (Expr.boolLit b)) :: rest)
          = Compiler.compileStmts ⟨c.constants,
              c.instructions ++ [if b then Code.OpTrue else Code.OpFalse,
                Code.OpPop]⟩ rest := by
        simp only [Compiler.compileStmts]
        rw [hstep]
      rw [hcs, hrec]
      simp [litsCode, litInstr, litConsts]

/-- Running the bytecode of a list of literal expression statements from
the end of a prefix `pre` of already-executed instructions: the run
reaches the end of the program and the last popped value — still at
`stack[0]`, where every one-slot push/pop cycle of this program wrote it
— is the literal object of the last statement. -/
theorem run_lits :
    ∀ (stmts : List Stmt) (csPre : List Object) (vm : VM.VM)
      (pre : List Nat) (fuel : Nat),
      (∀ s ∈ stmts, isLitStmt s = true) →
      vm.instructions = pre ++ (litsCode stmts csPre.length).1 →
      vm.constants = csPre ++ (litsCode stmts csPre.length).2 →
      vm.sp = 0 →
      vm.stack.length = VM.stackSize →
      csPre.length + stmts.length ≤ 65536 →
      (litsCode stmts csPre.length).1.length ≤ fuel →
      (stmts = [] → VM.runFrom vm pre.length fuel = .ok vm) ∧
      (∀ s, stmts.getLast? = some s →
        ∃ vmf, VM.runFrom vm pre.length fuel = .ok vmf ∧
          VM.lastPoppedStackElem vmf = some (litObject s)) := by
  intro stmts
  induction stmts with
  | nil =>
    intro csPre vm pre fuel _ hi _ _ _ _ _
    constructor
    · intro _
      cases fuel with
      | zero => exact VM.runFrom_zero vm pre.length
      | succ f =>
        have hend : ¬ (pre.length < vm.instructions.length) := by
          rw [hi]; simp [litsCode]
        rw [VM.runFrom_succ, if_neg hend]
    · intro s h; cases h
  | cons s0 rest ih =>
    intro csPre vm pre fuel hlit hi0 hc0 hsp0 hstk0 hbound hfuel
    have hs0 := hlit s0 (by simp)
    have hrest : ∀ s' ∈ rest, isLitStmt s' = true :=
      fun s' hm => hlit s' (by simp [hm])
    obtain ⟨vmCs, vmIns, vmSt, vmSp⟩ := vm
    have hsp : vmSp = 0 := hsp0
    subst hsp
    have hstk : vmSt.length = VM.stackSize := hstk0
    have hstkpos : 0 < vmSt.length := by rw [hstk]; norm_num [VM.stackSize]
    match s0, hs0 with
    | .exprStmt (some (.intLit v)), _ =>
      have hksmall : csPre.length < 65536 := by simp at hbound; omega
      have hi : vmIns = pre ++ ([Code.OpConstant, csPre.length / 256,
          csPre.length % 256, Code.OpPop] ++ (litsCode rest (csPre.length + 1)).1) := by
        have := hi0
        simpa [litsCode, litInstr, litConsts] using this
      have hc : vmCs = csPre ++ (Object.int v :: (litsCode rest (csPre.length + 1)).2) := by
        have := hc0
        simpa [litsCode, litInstr, litConsts] using this
      have hflen : 4 + (litsCode rest (csPre.length + 1)).1.length ≤ fuel := by
        have := hfuel
        simp [litsCode, litInstr, litConsts] at this
        omega
      obtain ⟨f2, rfl⟩ : ∃ f2, fuel = f2 + 2 := ⟨fuel - 2, by omega⟩
      have hip1 : pre.length < vmIns.length := by rw [hi]; simp
      have hop1 : vmIns.getD pre.length 0 = Code.OpConstant := by
        rw [hi]
        have := getD_append_right pre ([Code.OpConstant, csPre.length / 256,
          csPre.length % 256, Code.OpPop] ++ (litsCode rest (csPre.length + 1)).1) 0
        simpa using this
      have hread : Code.readUint16 (vmIns.drop (pre.length + 1))
          = some csPre.length := by
        rw [hi, drop_append_len pre _ 1]
        simp [Code.readUint16]
        omega
      have hconst : vmCs.get? csPre.length = some (Object.int v) := by
        rw [hc]
        have := get?_append_len csPre (Object.int v :: (litsCode rest (csPre.length + 1)).2) 0
        simpa using this
      have hpush : VM.push ⟨vmCs, vmIns, vmSt, 0⟩ (Object.int v)
          = .ok ⟨vmCs, vmIns, vmSt.set 0 (some (Object.int v)), 1⟩ := by
        have := VM.push_new_state ⟨vmCs, vmIns, vmSt, 0⟩ (Object.int v)
          (by norm_num [VM.stackSize])
        simpa using this
      have hstep1 : VM.runStep ⟨vmCs, vmIns, vmSt, 0⟩ pre.length
          = .ok (⟨vmCs, vmIns, vmSt.set 0 (some (Object.int v)), 1⟩,
              pre.length + 3) := by
        unfold VM.runStep
        rw [show (⟨vmCs, vmIns, vmSt, 0⟩ : VM.VM).instructions = vmIns from rfl,
          hop1, VM.execOp_opconst]
        simp only [show (⟨vmCs, vmIns, vmSt, 0⟩ : VM.VM).instructions = vmIns
            from rfl,
          show (⟨vmCs, vmIns, vmSt, 0⟩ : VM.VM).constants = vmCs from rfl,
          hread, hconst, hpush]
      have hip2 : pre.length + 3 < vmIns.length := by rw [hi]; simp
      have hop2 : vmIns.getD (pre.length + 3) 0 = Code.OpPop := by
        rw [hi]
        have := getD_append_right pre ([Code.OpConstant, csPre.length / 256,
          csPre.length % 256, Code.OpPop] ++ (litsCode rest (csPre.length + 1)).1) 3
        simpa using this
      have hpop : VM.pop ⟨vmCs, vmIns, vmSt.set 0 (some (Object.int v)), 1⟩
          = .ok (Object.int v,
              ⟨vmCs, vmIns, vmSt.set 0 (some (Object.int v)), 0⟩) := by
        have := VM.pop_at ⟨vmCs, vmIns, vmSt.set 0 (some (Object.int v)), 1⟩
          (Object.int v) rfl
          (by rw [show (⟨vmCs, vmIns, vmSt.set 0 (some (Object.int v)), 1⟩ :
                VM.VM).stack = vmSt.set 0 (some (Object.int v)) from rfl]
              rw [List.get?_eq_getElem?,
                List.getElem?_set_self (by simpa using hstkpos)])
        simpa using this
      have hstep2 : VM.runStep ⟨vmCs, vmIns, vmSt.set 0 (some (Object.int v)), 1⟩
            (pre.length + 3)
          = .ok (⟨vmCs, vmIns, vmSt.set 0 (some (Object.int v)), 0⟩,
              pre.length + 4) := by
        unfold VM.runStep
        rw [show (⟨vmCs, vmIns, vmSt.set 0 (some (Object.int v)), 1⟩ :
            VM.VM).instructions = vmIns from rfl, hop2, VM.execOp_oppop, hpop]
      have hrec := ih (csPre ++ [Object.int v])
        ⟨vmCs, vmIns, vmSt.set 0 (some (Object.int v)), 0⟩
        (pre ++ [Code.OpConstant, csPre.length / 256, csPre.length % 256,
          Code.OpPop]) f2
        hrest
        (by rw [hi]; simp)
        (by rw [hc]; simp)
        rfl
        (by simp [hstk])
        (by simp at hbound ⊢; omega)
        (by simp; omega)
      have hlen4 : (pre ++ [Code.OpConstant, csPre.length / 256,
          csPre.length % 256, Code.OpPop]).length = pre.length + 4 := by simp
      rw [hlen4] at hrec
      refine ⟨fun habs => absurd habs (by simp), ?_⟩
      intro s hlast
      rw [VM.runFrom_step (f2 + 1) hip1 hstep1,
        VM.runFrom_step f2 hip2 hstep2]
      cases rest with
      | nil =>
        obtain rfl : Stmt.exprStmt (some (Expr.intLit v)) = s := by simpa using hlast
        refine ⟨⟨vmCs, vmIns, vmSt.set 0 (some (Object.int v)), 0⟩,
          hrec.1 rfl, ?_⟩
        show (vmSt.set 0 (some (Object.int v))).getD 0 none = some (litObject _)
        rw [List.getD_eq_getElem?_getD,
          List.getElem?_set_self (by simpa using hstkpos)]
        rfl
      | cons r1 rrest =>
        have hlast' : (r1 :: rrest).getLast? = some s := by
          rwa [List.getLast?_cons_cons] at hlast
        exact hrec.2 s hlast'
    | .exprStmt (some (.boolLit b)), _ =>
      have hi : vmIns = pre ++ ([(if b then Code.OpTrue else Code.OpFalse),
          Code.OpPop] ++ (litsCode rest csPre.length).1) := by
        have := hi0
        simpa [litsCode, litInstr, litConsts] using this
      have hc : vmCs = csPre ++ (litsCode rest csPre.length).2 := by
        have := hc0
        simpa [litsCode, litInstr, litConsts] using this
      have hflen : 2 + (litsCode rest csPre.length).1.length ≤ fuel := by
        have := hfuel
        simp [litsCode, litInstr, litConsts] at this
        omega
      obtain ⟨f2, rfl⟩ : ∃ f2, fuel = f2 + 2 := ⟨fuel - 2, by omega⟩
      have hip1 : pre.length < vmIns.length := by rw [hi]; simp
      have hop1 : vmIns.getD pre.length 0
          = (if b then Code.OpTrue else Code.OpFalse) := by
        rw [hi]
        have := getD_append_right pre ([(if b then Code.OpTrue else Code.OpFalse),
          Code.OpPop] ++ (litsCode rest csPre.length).1) 0
        simpa using this
      have hpush : VM.push ⟨vmCs, vmIns, vmSt, 0⟩
            (VM.nativeBoolToBooleanObject b)
          = .ok ⟨vmCs, vmIns,
              vmSt.set 0 (some (VM.nativeBoolToBooleanObject b)), 1⟩ := by
        have := VM.push_new_state ⟨vmCs, vmIns, vmSt, 0⟩
          (VM.nativeBoolToBooleanObject b) (by norm_num [VM.stackSize])
        simpa using this
      have hstep1 : VM.runStep ⟨vmCs, vmIns, vmSt, 0⟩ pre.length
          = .ok (⟨vmCs, vmIns,
              vmSt.set 0 (some (VM.nativeBoolToBooleanObject b)), 1⟩,
              pre.length + 1) := by
        unfold VM.runStep
        rw [show (⟨vmCs, vmIns, vmSt, 0⟩ : VM.VM).instructions = vmIns from rfl,
          hop1]
        cases b with
        | true =>
          rw [show (if true then Code.OpTrue else Code.OpFalse) = Code.OpTrue
              from rfl, VM.execOp_optrue]
          rw [show VM.trueObj = VM.nativeBoolToBooleanObject true from rfl,
            hpush]
        | false =>
          rw [show (if false then Code.OpTrue else Code.OpFalse) = Code.OpFalse
              from rfl, VM.execOp_opfalse]
          rw [show VM.falseObj = VM.nativeBoolToBooleanObject false from rfl,
            hpush]
      have hip2 : pre.length + 1 < vmIns.length := by rw [hi]; simp
      have hop2 : vmIns.getD (pre.length + 1) 0 = Code.OpPop := by
        rw [hi]
        have := getD_append_right pre ([(if b then Code.OpTrue else Code.OpFalse),
          Code.OpPop] ++ (litsCode rest csPre.length).1) 1
        simpa using this
      have hpop : VM.pop ⟨vmCs, vmIns,
            vmSt.set 0 (some (VM.nativeBoolToBooleanObject b)), 1⟩
          = .ok (VM.nativeBoolToBooleanObject b,
              ⟨vmCs, vmIns,
                vmSt.set 0 (some (VM.nativeBoolToBooleanObject b)), 0⟩) := by
        have := VM.pop_at ⟨vmCs, vmIns,
            vmSt.set 0 (some (VM.nativeBoolToBooleanObject b)), 1⟩
          (VM.nativeBoolToBooleanObject b) rfl
          (by rw [show (⟨vmCs, vmIns,
                vmSt.set 0 (some (VM.nativeBoolToBooleanObject b)), 1⟩ :
                VM.VM).stack
                = vmSt.set 0 (some (VM.nativeBoolToBooleanObject b)) from rfl]
              rw [List.get?_eq_getElem?,
                List.getElem?_set_self (by simpa using hstkpos)])
        simpa using this
      have hstep2 : VM.runStep ⟨vmCs, vmIns,
            vmSt.set 0 (some (VM.nativeBoolToBooleanObject b)), 1⟩
            (pre.length + 1)
          = .ok (⟨vmCs, vmIns,
              vmSt.set 0 (some (VM.nativeBoolToBooleanObject b)), 0⟩,
              pre.length + 2) := by
        unfold VM.runStep
        rw [show (⟨vmCs, vmIns,
            vmSt.set 0 (some (VM.nativeBoolToBooleanObject b)), 1⟩ :
            VM.VM).instructions = vmIns from rfl, hop2, VM.execOp_oppop, hpop]
      have hrec := ih csPre
        ⟨vmCs, vmIns,
          vmSt.set 0 (some (VM.nativeBoolToBooleanObject b)), 0⟩
        (pre ++ [(if b then Code.OpTrue else Code.OpFalse), Code.OpPop]) f2
        hrest
        (by rw [hi]; simp)
        (by rw [hc])
        rfl
        (by simp [hstk])
        (by simp at hbound; omega)
        (by omega)
      have hlen2 : (pre ++ [(if b then Code.OpTrue else Code.OpFalse),
          Code.OpPop]).length = pre.length + 2 := by simp
      rw [hlen2] at hrec
      refine ⟨fun habs => absurd habs (by simp), ?_⟩
      intro s hlast
      rw [VM.runFrom_step (f2 + 1) hip1 hstep1,
        VM.runFrom_step f2 hip2 hstep2]
      cases rest with
      | nil =>
        obtain rfl : Stmt.exprStmt (some (Expr.boolLit b)) = s := by simpa using hlast
        refine ⟨⟨vmCs, vmIns,
          vmSt.set 0 (some (VM.nativeBoolToBooleanObject b)), 0⟩,
          hrec.1 rfl, ?_⟩
        show (vmSt.set 0 (some (VM.nativeBoolToBooleanObject b))).getD 0 none
            = some (litObject _)
        rw [List.getD_eq_getElem?_getD,
          List.getElem?_set_self (by simpa using hstkpos)]
        cases b <;> rfl
      | cons r1 rrest =>
        have hlast' : (r1 :: rrest).getLast? = some s := by
          rwa [List.getLast?_cons_cons] at hlast
        exact hrec.2 s hlast'

/-- A non-empty list has a last element. -/
theorem exists_getLast? :
    ∀ (l : List Stmt), l ≠ [] → ∃ s, l.getLast? = some s := by
  intro l
  induction l with
  | nil => intro h; exact absurd rfl h
  | cons a t ih =>
    intro _
    cases t with
    | nil => exact ⟨a, rfl⟩
    | cons b t2 =>
      obtain ⟨s, hs⟩ := ih (by simp)
      exact ⟨s, by rwa [List.getLast?_cons_cons]⟩

/-- C1 (amended): for every non-empty program all of whose statements
are expression statements of integer or boolean literals (and whose
statement count stays below the 2^16 operand limit of `OpConstant`),
compiling with `Compile` and running with `Run` yields a last-popped
value whose `Inspect()` output equals the `Inspect()` output of
`evaluator.Eval` on the same AST — both paths produce the value of the
last literal. -/
theorem compile_run_eval_agree_literals (p : Program)
    (hne : p.statements ≠ [])
    (hlit : ∀ s ∈ p.statements, isLitStmt s = true)
    (hlen : p.statements.length ≤ 65536) :
    ∃ bc vmf o o', Compiler.compileProgram p = .ok bc ∧
      VM.run (VM.new bc) = .ok vmf ∧
      Evaluator.evalProgram p = some o ∧
      VM.lastPoppedStackElem vmf = some o' ∧
      o'.inspect = o.inspect := by
  have hcomp := compileStmts_lits p.statements Compiler.new hlit
    (by simpa [Compiler.new] using hlen)
  have hcp : Compiler.compileProgram p
      = .ok ⟨(litsCode p.statements 0).1, (litsCode p.statements 0).2⟩ := by
    unfold Compiler.compileProgram
    rw [hcomp]
    simp [Compiler.new]
  obtain ⟨s, hlast⟩ := exists_getLast? p.statements hne
  have hsmem : s ∈ p.statements := List.mem_of_mem_getLast? hlast
  have heval : Evaluator.evalProgram p = some (litObject s) := by
    unfold Evaluator.evalProgram
    rw [evalStatements_last p.statements s hlast, evalStmt_lit s (hlit s hsmem)]
  have hrun := (run_lits p.statements []
    (VM.new ⟨(litsCode p.statements 0).1, (litsCode p.statements 0).2⟩) []
    ((litsCode p.statements 0).1.length)
    hlit
    (by simp [VM.new])
    (by simp [VM.new])
    rfl
    (by simp [VM.new])
    (by simpa using hlen)
    le_rfl).2 s hlast
  obtain ⟨vmf, hrunf, hlp⟩ := hrun
  exact ⟨_, vmf, litObject s, litObject s, hcp, hrunf, heval, hlp, rfl⟩

/-- Witness for C1 (amended) at the concrete program `5; true;`: both
paths yield Inspect output `true`. -/
theorem compile_run_eval_agree_literals_witness :
    ∃ bc vmf o o',
      Compiler.compileProgram
          ⟨[.exprStmt (some (.intLit 5)), .exprStmt (some (.boolLit true))]⟩
        = .ok bc ∧
      VM.run (VM.new bc) = .ok vmf ∧
      Evaluator.evalProgram
          ⟨[.exprStmt (some (.intLit 5)), .exprStmt (some (.boolLit true))]⟩
        = some o ∧
      VM.lastPoppedStackElem vmf = some o' ∧
      o'.inspect = o.inspect :=
  compile_run_eval_agree_literals
    ⟨[.exprStmt (some (.intLit 5)), .exprStmt (some (.boolLit true))]⟩
    (by simp) (by decide) (by norm_num)

/-- C1 (counterexample): the source `1 + 2` parses without errors to
`onePlusTwo`, and the cited `evaluator.Eval` returns Go `nil` for it
(its switch has no `*ast.InfixExpression` case), so there is no
`Inspect()` output on the evaluator side, while compiling and running
the same AST leaves `Integer 3` (Inspect `"3"`) as the last popped
value.  The two paths therefore do not agree on this program. -/
theorem compile_run_eval_agree_counterexample :
    Evaluator.evalProgram onePlusTwo = none ∧
    Compiler.compileProgram onePlusTwo
        = .ok ⟨[0, 0, 0, 0, 0, 1, 1, 2], [.int 1, .int 2]⟩ ∧
    ∃ vmf, VM.run (VM.new ⟨[0, 0, 0, 0, 0, 1, 1, 2], [.int 1, .int 2]⟩)
        = .ok vmf ∧
      VM.lastPoppedStackElem vmf = some (.int 3) ∧
      Object.inspect (.int 3) = "3" :=
  ⟨rfl, rfl, _, rfl, rfl, rfl⟩

/-- C5: `Resolve` searches scopes inner to outer: a name found in the
current scope's store is returned unchanged; and whenever the name is
absent from the current store but resolved in the outer chain with a
non-global, non-builtin scope, the returned symbol is rewritten to a
Free-scoped symbol whose index is its position in the current scope's
`FreeSymbols` list, to which a copy of the original symbol is
appended. -/
theorem resolve_free_variable_rewriting :
    (∀ (st : List (String × SymTab.Symbol)) (nd : Nat)
        (fs : List SymTab.Symbol) (outerOpt : Option SymTab.SymbolTable)
        (name : String) (sym : SymTab.Symbol),
      SymTab.lookupStore st name = some sym →
      SymTab.resolve (.mk st nd fs outerOpt) name
        = some (sym, .mk st nd fs outerOpt)) ∧
    (∀ (st : List (String × SymTab.Symbol)) (nd : Nat)
        (fs : List SymTab.Symbol) (out out' : SymTab.SymbolTable)
        (name : String) (sym : SymTab.Symbol),
      SymTab.lookupStore st name = none →
      SymTab.resolve out name = some (sym, out') →
      sym.scope ≠ .globalScope →
      sym.scope ≠ .builtinScope →
      SymTab.resolve (.mk st nd fs (some out)) name
        = some (⟨sym.name, .freeScope, fs.length⟩,
            .mk st nd (fs ++ [sym]) (some out'))) := by
  constructor
  · intro st nd fs outerOpt name sym h
    cases outerOpt with
    | none =>
      unfold SymTab.resolve
      rw [h]
    | some out =>
      unfold SymTab.resolve
      rw [h]
  · intro st nd fs out out' name sym hmiss hout hng hnb
    unfold SymTab.resolve
    rw [hmiss, hout]
    simp only []
    rw [if_neg]
    intro hor
    cases hor with
    | inl h => exact hng h
    | inr h => exact hnb h

/-- C5 witness: a global scope defining `a`, a local scope defining `b`,
and an innermost scope; resolving `b` from the innermost scope rewrites
the Local symbol `⟨b, Local, 0⟩` to `⟨b, Free, 0⟩` and appends the
original to the innermost scope's `FreeSymbols`. -/
theorem resolve_free_variable_rewriting_witness :
    SymTab.resolve
        (.mk [] 0 []
          (some (.mk [("b", ⟨"b", .localScope, 0⟩)] 1 []
            (some (.mk [("a", ⟨"a", .globalScope, 0⟩)] 1 [] none)))))
        "b"
      = some (⟨"b", .freeScope, 0⟩,
          .mk [] 0 [⟨"b", .localScope, 0⟩]
            (some (.mk [("b", ⟨"b", .localScope, 0⟩)] 1 []
              (some (.mk [("a", ⟨"a", .globalScope, 0⟩)] 1 [] none))))) := by
  have h2 := resolve_free_variable_rewriting.2
      [] 0 []
      (.mk [("b", ⟨"b", .localScope, 0⟩)] 1 []
        (some (.mk [("a", ⟨"a", .globalScope, 0⟩)] 1 [] none)))
      (.mk [("b", ⟨"b", .localScope, 0⟩)] 1 []
        (some (.mk [("a", ⟨"a", .globalScope, 0⟩)] 1 [] none)))
      "b" ⟨"b", .localScope, 0⟩
      rfl
      (resolve_free_variable_rewriting.1
        [("b", ⟨"b", .localScope, 0⟩)] 1 []
        (some (.mk [("a", ⟨"a", .globalScope, 0⟩)] 1 [] none))
        "b" ⟨"b", .localScope, 0⟩ rfl)
      (by decide) (by decide)
  simpa using h2

/-- If the current byte is not whitespace, `skipWhitespace` is the
identity for every fuel. -/
theorem Lexer.skipWhitespace_not_ws (fuel : Nat) (l : Lexer.Lexer)
    (h : ¬(l.ch = 32 ∨ l.ch = 9 ∨ l.ch = 10 ∨ l.ch = 13)) :
    Lexer.skipWhitespace fuel l = l := by
  cases fuel with
  | zero => rfl
  | succ n =>
    unfold Lexer.skipWhitespace
    rw [if_neg h]

/-- C8: `NextToken` on `=` peeks one byte ahead: `==` yields a single EQ
token with both bytes consumed, otherwise an ASSIGN token; likewise `!`
followed by `=` yields a single NOT_EQ token, and `!` alone yields
BANG. -/
theorem next_token_eq_bang_peeking :
    (∀ l : Lexer.Lexer, l.ch = 61 → Lexer.peekChar l = 61 →
      Lexer.nextToken l
        = (⟨token.EQ, "=="⟩, Lexer.readChar (Lexer.readChar l))) ∧
    (∀ l : Lexer.Lexer, l.ch = 61 → Lexer.peekChar l ≠ 61 →
      Lexer.nextToken l = (⟨token.ASSIGN, "="⟩, Lexer.readChar l)) ∧
    (∀ l : Lexer.Lexer, l.ch = 33 → Lexer.peekChar l = 61 →
      Lexer.nextToken l
        = (⟨token.NOT_EQ, "!="⟩, Lexer.readChar (Lexer.readChar l))) ∧
    (∀ l : Lexer.Lexer, l.ch = 33 → Lexer.peekChar l ≠ 61 →
      Lexer.nextToken l = (⟨token.BANG, "!"⟩, Lexer.readChar l)) := by
  refine ⟨?_, ?_, ?_, ?_⟩ <;>
    (intro l h1 h2
     have hskip := Lexer.skipWhitespace_not_ws (l.input.length + 1) l
       (by rw [h1]; simp)
     rw [Lexer.nextToken, hskip]
     simp [Lexer.nextTokenDispatch, h1, h2, Lexer.newToken, Lexer.chString,
       token.ASSIGN, token.BANG, token.EQ, token.NOT_EQ])

/-- C8 witness: on the input `==` the lexer emits one EQ token and
consumes both bytes; on `!;` the `!` alone emits BANG. -/
theorem next_token_eq_bang_peeking_witness :
    Lexer.nextToken (Lexer.new [61, 61])
        = (⟨token.EQ, "=="⟩,
            Lexer.readChar (Lexer.readChar (Lexer.new [61, 61]))) ∧
    Lexer.nextToken (Lexer.new [33, 59])
        = (⟨token.BANG, "!"⟩, Lexer.readChar (Lexer.new [33, 59])) :=
  ⟨next_token_eq_bang_peeking.1 (Lexer.new [61, 61])
      (by decide) (by decide),
   next_token_eq_bang_peeking.2.2.2 (Lexer.new [33, 59])
      (by decide) (by decide)⟩

/-- C9: when the peek tokens deliver `IDENT` then `=`, the let-statement
production consumes `let IDENT =`, parses the right-hand side with
`parseExpression` at LOWEST precedence from the token after `=`, and
stores it in the statement's Value field after the function-literal
rewriting; that rewriting sets a function literal's `name` field to the
bound identifier and leaves every other value unchanged. -/
theorem let_statement_value_at_lowest (fuel : Nat) (p : Parser.Parser)
    (h1 : p.peekToken.type = token.IDENT)
    (h2 : (Parser.nextToken p).peekToken.type = token.ASSIGN) :
    (Parser.parseLetStatement (fuel + 1) p
      = (some (.letStmt (Parser.nextToken p).curToken.literal
          (Parser.renameFuncLit (Parser.nextToken p).curToken.literal
            (Parser.parseExpression fuel
              (Parser.nextToken (Parser.nextToken (Parser.nextToken p)))
              Parser.LOWEST).1)),
        Parser.skipSemicolons fuel
          (Parser.parseExpression fuel
            (Parser.nextToken (Parser.nextToken (Parser.nextToken p)))
            Parser.LOWEST).2)) ∧
    (∀ (name : String) (params : List String) (body : List Stmt)
        (nm : String),
      Parser.renameFuncLit name (some (.funcLit params body nm))
        = some (.funcLit params body name)) ∧
    (∀ (name : String) (e : Option Expr),
      (∀ params body nm, e ≠ some (.funcLit params body nm)) →
      Parser.renameFuncLit name e = e) := by
  refine ⟨?_, ?_, ?_⟩
  · simp only [Parser.parseLetStatement, Parser.expectPeek, h1, h2,
      if_true]
  · intro name params body nm
    rfl
  · intro name e he
    match e with
    | none => rfl
    | some (.ident v) => rfl
    | some (.intLit v) => rfl
    | some (.boolLit v) => rfl
    | some (.strLit v) => rfl
    | some (.prefixExpr op r) => rfl
    | some (.infixExpr op a b) => rfl
    | some (.funcLit params body nm) => exact absurd rfl (he params body nm)

/-- C9 witness: parsing `let f = fn() \x7b\x7d ;` stores the
function-literal value parsed at LOWEST in the Value field with its
`name` field set to `f`. -/
theorem let_statement_value_at_lowest_witness :
    Parser.parseLetStatement 10
        ⟨⟨token.LET, "let"⟩, ⟨token.IDENT, "f"⟩,
          [⟨token.ASSIGN, "="⟩, ⟨token.FUNCTION, "fn"⟩,
            ⟨token.LPAREN, "("⟩, ⟨token.RPAREN, ")"⟩,
            ⟨token.LBRACE, "\x7b"⟩, ⟨token.RBRACE, "\x7d"⟩,
            ⟨token.SEMICOLON, ";"⟩, ⟨token.EOF, ""⟩], []⟩
      = (some (.letStmt "f" (some (.funcLit [] [] "f"))),
          ⟨⟨token.SEMICOLON, ";"⟩, ⟨token.EOF, ""⟩, [], []⟩) := by
  have h := (let_statement_value_at_lowest 9
      ⟨⟨token.LET, "let"⟩, ⟨token.IDENT, "f"⟩,
        [⟨token.ASSIGN, "="⟩, ⟨token.FUNCTION, "fn"⟩,
          ⟨token.LPAREN, "("⟩, ⟨token.RPAREN, ")"⟩,
          ⟨token.LBRACE, "\x7b"⟩, ⟨token.RBRACE, "\x7d"⟩,
          ⟨token.SEMICOLON, ";"⟩, ⟨token.EOF, ""⟩], []⟩
      rfl rfl).1
  rw [h]
  rfl

end Monkey
